import Mathlib

/-!
# fake-jason: the in-memory record store of `database.go`

A shallow embedding of the store (`loadDB`, `database`, its five methods,
`searchRecords` and `quickSort`) and the properties of its specification.

Modelling conventions

* A decoded JSON value (`any`) is a `Value`.
* A `float64` is modelled by the whole number it holds (ids are whole numbers);
  numbers with a fractional part, NaN and infinities are outside the embedding.  Ids
  are compared exactly; the sum `id + 1` of `AddRow` is rounded as IEEE 754 rounds
  it, to the nearest `float64`, ties to even (`float64Add`).
* A `row` (`map[string]any`) is a reference: nil, or the address of a map object.
  The map objects live in a `Memory`, address to contents (`Fields`).  Rows with the
  same address are one map: a write through one is seen through the other.
* Methods on `*database` pass the store explicitly and read the memory; they return
  the store they leave behind together with their Go result.  Only `AddRow` writes
  into a map, so only `AddRow` also returns the memory.  The mutex is not modelled
  (one caller at a time).
* A Go run-time panic is an explicit outcome.
* The type parameter of `searchRecords` is taken as `any`, which every searched value
  boxes into; the one of `quickSort` is a linear order `T` together with its type
  assertion `asT`, instantiated by `asFloat64` and `asString`.
* `sort.Slice` is library code; it is modelled by the insertion sort the library
  runs on short slices.
* `loadDB` takes the file system (`os.Open`) and the JSON decoder as parameters;
  `strings.Split(path, ".")` is modelled on the characters of the path.
-/

namespace FakeJason

/-! ## Data model -/

mutual
/-- What `encoding/json` decodes into an `any`. -/
inductive Value where
  | null
  | bool (b : Bool)
  | num (n : Int)
  | str (s : String)
  | arr (items : ValueList)
  | obj (fields : FieldList)
/-- The elements of a decoded JSON array. -/
inductive ValueList where
  | nil
  | cons (v : Value) (rest : ValueList)
/-- The members of a decoded JSON object. -/
inductive FieldList where
  | nil
  | cons (k : String) (v : Value) (rest : FieldList)
end

deriving instance DecidableEq for Value

/-- The Go type `table`, a table name. -/
abbrev table := String

/-- The contents of one map object: column names and their values. -/
abbrev Fields := List (String × Value)

/-- The read `val, ok := m[col]` on the contents of a map: `none` is `ok == false`. -/
def Fields.get (m : Fields) (col : String) : Option Value :=
  List.lookup col m

/-- The contents of a map after the write `m[col] = v`. -/
def Fields.set (m : Fields) (col : String) (v : Value) : Fields :=
  (col, v) :: List.filter (fun p => p.1 != col) m

/-- The Go type `row`, `map[string]any`: a map value is nil or refers to a map
object, named here by its address. -/
inductive row where
  | nil
  | ref (addr : Nat)
  deriving DecidableEq, Repr

/-- The map objects of the program, the rows of the store and the bodies of its
callers alike: address to contents. -/
abbrev Memory := Nat → Fields

/-- What a row holds; a nil map reads like the empty map. -/
def row.fields (r : row) (mem : Memory) : Fields :=
  match r with
  | .nil => []
  | .ref a => mem a

/-- The map read `val, ok := r[col]`: `none` is `ok == false`. -/
def row.get (r : row) (mem : Memory) (col : String) : Option Value :=
  Fields.get (r.fields mem) col

/-- The map write `r[col] = v`, into the object the row refers to; `none` is the
panic of a write into a nil map. -/
def row.set (r : row) (mem : Memory) (col : String) (v : Value) : Option Memory :=
  match r with
  | .nil => none
  | .ref a => some (fun b => if b = a then Fields.set (mem a) col v else mem b)

/-- The Go struct `database`: `Tables map[table][]row`. -/
structure database where
  Tables : table → Option (List row)

/-- The five package-level error values; each `errors.New` call makes a value of
its own, whatever its text. -/
inductive DbError where
  | errNotAJsonFile
  | errTableNotFound
  | errColumnNotFound
  | errRecordAlreadyExists
  | errRecordNotFound
  deriving DecidableEq, Repr

/-- The text given to `errors.New`, which the method `Error()` returns. -/
def DbError.Error : DbError → String
  | .errNotAJsonFile => "the provided file is not a json file"
  | .errTableNotFound => "table does not exist"
  | .errColumnNotFound => "table does not exist"
  | .errRecordAlreadyExists => "record already exists"
  | .errRecordNotFound => "record does not exist"

/-- The run-time panics the store's code can raise. -/
inductive Panic where
  | indexOutOfRange
  | interfaceConversion
  | nilMapWrite
  | uncomparable
  deriving DecidableEq, Repr

/-- How a call ends: a result, a returned error, or a run-time panic. -/
inductive Outcome (α : Type) where
  | ok (a : α)
  | err (e : DbError)
  | panic (p : Panic)
  deriving DecidableEq

/-- The comparison `val == id` of an `any` with a `float64`: true only when the
dynamic type of `val` is `float64` and the numbers are equal. -/
def anyEqFloat64 (val : Value) (id : Int) : Bool :=
  match val with
  | .num n => decide (n = id)
  | _ => false

/-- The type assertion `v.(float64)` on a present value; `none` is the panic. -/
def asFloat64 : Value → Option Int
  | .num n => some n
  | _ => none

/-- The type assertion `r[col].(float64)` on the result of a map read: a missing key
reads as the nil interface, on which the assertion panics as on any other dynamic
type. -/
def assertFloat64 (v : Option Value) : Option Int :=
  v.bind asFloat64

/-- How many low bits `a` has beyond the 53 a `float64` keeps; the first argument
bounds the recursion. -/
def excessBits : Nat → Nat → Nat
  | 0, _ => 0
  | fuel + 1, a => if a < 2 ^ 53 then 0 else excessBits fuel (a / 2) + 1

/-- The `float64` nearest to the whole number `z`, ties to the even significand:
`z` itself when it has at most 53 significant bits, else its 53 leading bits, rounded.
(No overflow: the sum of a `float64` and 1 is never beyond the largest `float64`.) -/
def roundFloat64 (z : Int) : Int :=
  let a := z.natAbs
  let s := excessBits a a
  if s = 0 then z
  else
    let q := a / 2 ^ s
    let r := a % 2 ^ s
    let half := 2 ^ (s - 1)
    let q1 := if half < r ∨ (r = half ∧ q % 2 = 1) then q + 1 else q
    z.sign * ((q1 * 2 ^ s : Nat) : Int)

/-- The `float64` sum `x + y` of two whole numbers. -/
def float64Add (x y : Int) : Int :=
  roundFloat64 (x + y)

/-- The slice read `rows[i]`; `none` is the index-out-of-range panic. -/
def index (rows : List row) (i : Int) : Option row :=
  if i < 0 then none else rows[i.toNat]?

/-- Reading `db.Tables[name]`: the nil slice when the key is absent. -/
def database.rows (db : database) (name : table) : List row :=
  (db.Tables name).getD []

/-- The assignment `db.Tables[name] = rows`. -/
def database.setRows (db : database) (name : table) (rows : List row) : database :=
  { Tables := fun n => if n = name then some rows else db.Tables n }

/-! ## Table lookup -/

/-- Go `tableExists`. -/
def tableExists (db : database) (name : table) : Bool :=
  (db.Tables name).isSome

/-- Go `getTable`. -/
def getTable (db : database) (name : table) : database × Outcome (List row) :=
  if !tableExists db name then (db, .err .errTableNotFound)
  else (db, .ok (db.rows name))

/-! ## Retrieval by id -/

/-- The `for i, row := range db.Tables[name]` loop of `GetRowById`, at index `i` with
`rest` still to visit; `tbl` is the whole slice, read at `i` on a match. -/
def GetRowById.loop (mem : Memory) (tbl : List row) (id : Int) :
    Nat → List row → Outcome row
  | _, [] => .err .errRecordNotFound
  | i, r :: rest =>
    match r.get mem "id" with
    | none => .err .errColumnNotFound
    | some val =>
      if anyEqFloat64 val id then
        match index tbl i with
        | some found => .ok found
        | none => .panic .indexOutOfRange
      else GetRowById.loop mem tbl id (i + 1) rest

/-- Go `GetRowById`; the row returned is the store's own map. -/
def GetRowById (mem : Memory) (db : database) (name : table) (id : Int) :
    database × Outcome row :=
  if !tableExists db name then (db, .err .errTableNotFound)
  else (db, GetRowById.loop mem (db.rows name) id 0 (db.rows name))

/-! ## Deletion by id -/

/-- The scan of `DeleteRowById`, at index `i` with `rest` still to visit.  On a match
the table becomes `append(rows[:i], rows[i+1:]...)`; `i` is an index of the slice, so
both slice expressions are in range. -/
def DeleteRowById.loop (mem : Memory) (db : database) (name : table) (id : Int) :
    Nat → List row → database × Outcome Unit
  | _, [] => (db, .err .errRecordNotFound)
  | i, r :: rest =>
    match r.get mem "id" with
    | none => (db, .err .errColumnNotFound)
    | some val =>
      if anyEqFloat64 val id then
        (db.setRows name ((db.rows name).take i ++ (db.rows name).drop (i + 1)), .ok ())
      else DeleteRowById.loop mem db name id (i + 1) rest

/-- Go `DeleteRowById`; `Outcome.ok ()` is the nil error. -/
def DeleteRowById (mem : Memory) (db : database) (name : table) (id : Int) :
    database × Outcome Unit :=
  if !tableExists db name then (db, .err .errTableNotFound)
  else DeleteRowById.loop mem db name id 0 (db.rows name)

/-! ## Insertion -/

/-- Go `AddRow`.  The append comes first and puts the caller's map itself into the
table; the id assignment then reads the slice at `l-1` (the map to write) and at
`l-2`, asserts the `id` found there to be a `float64`, adds 1 and writes the sum
into that map; the result is what `GetRowById` finds for that id.  A panic leaves
memory and store as they were at that moment. -/
def AddRow (mem : Memory) (db : database) (name : table) (body : row) :
    Memory × database × Outcome row :=
  if !tableExists db name then (mem, db, .err .errTableNotFound)
  else
    let db1 := db.setRows name (db.rows name ++ [body])
    let l : Int := (db1.rows name).length
    match index (db1.rows name) (l - 1) with
    | none => (mem, db1, .panic .indexOutOfRange)
    | some last =>
      match index (db1.rows name) (l - 2) with
      | none => (mem, db1, .panic .indexOutOfRange)
      | some prev =>
        match assertFloat64 (prev.get mem "id") with
        | none => (mem, db1, .panic .interfaceConversion)
        | some n =>
          match last.set mem "id" (.num (float64Add n 1)) with
          | none => (mem, db1, .panic .nilMapWrite)
          | some mem1 =>
            match index (db1.rows name) (l - 1) with
            | none => (mem1, db1, .panic .indexOutOfRange)
            | some added =>
              match assertFloat64 (added.get mem1 "id") with
              | none => (mem1, db1, .panic .interfaceConversion)
              | some newId =>
                (mem1, (GetRowById mem1 db1 name newId).1,
                  (GetRowById mem1 db1 name newId).2)

/-! ## Update by id -/

/-- The scan of `EditRowById`, at index `i` with `rest` still to visit.  On a match
`db.Tables[name][i] = body` puts the caller's map into the slot, and the element at
`i` is returned. -/
def EditRowById.loop (mem : Memory) (db : database) (name : table) (id : Int)
    (body : row) : Nat → List row → database × Outcome row
  | _, [] => (db, .err .errRecordNotFound)
  | i, r :: rest =>
    match r.get mem "id" with
    | none => (db, .err .errColumnNotFound)
    | some val =>
      if anyEqFloat64 val id then
        let db1 := db.setRows name ((db.rows name).set i body)
        match index (db1.rows name) i with
        | some edited => (db1, .ok edited)
        | none => (db1, .panic .indexOutOfRange)
      else EditRowById.loop mem db name id body (i + 1) rest

/-- Go `EditRowById`. -/
def EditRowById (mem : Memory) (db : database) (name : table) (id : Int) (body : row) :
    database × Outcome row :=
  if !tableExists db name then (db, .err .errTableNotFound)
  else EditRowById.loop mem db name id body 0 (db.rows name)

/-! ## Search -/

/-- The comparison `val == v` of two interface values: unequal when the dynamic
types differ, the comparison of the values when both are nil, `bool`, `float64` or
`string`, and a run-time panic (`none`) when both hold a slice or both hold a map. -/
def anyEq (val v : Value) : Option Bool :=
  match val, v with
  | .null, .null => some true
  | .bool a, .bool b => some (decide (a = b))
  | .num a, .num b => some (decide (a = b))
  | .str a, .str b => some (decide (a = b))
  | .arr _, .arr _ => none
  | .obj _, .obj _ => none
  | _, _ => some false

/-- How `searchRecords` ends: its pair `([]row, error)`, `none` being the nil error,
or a panic. -/
inductive SearchOutcome where
  | returned (result : List row) (err : Option DbError)
  | panic (p : Panic)
  deriving DecidableEq

/-- The loop of `searchRecords` with `result` built so far and `rest` to visit.  The
error return carries the partial `result`; the normal return a clone of it. -/
def searchRecords.loop (mem : Memory) (col : String) (v : Value) :
    List row → List row → SearchOutcome
  | result, [] => .returned result none
  | result, r :: rest =>
    match r.get mem col with
    | none => .returned result (some .errColumnNotFound)
    | some val =>
      match anyEq val v with
      | none => .panic .uncomparable
      | some true => searchRecords.loop mem col v (result ++ [r]) rest
      | some false => searchRecords.loop mem col v result rest

/-- Go `searchRecords[T]`, with the searched value boxed as `any`. -/
def searchRecords (mem : Memory) (data : List row) (col : String) (v : Value) :
    SearchOutcome :=
  searchRecords.loop mem col v [] data

/-! ## Sort -/

/-- The operand `rows[i][col].(T)` of the comparison: `asT` is the assertion to `T` on
a present value; a missing column reads as the nil interface, on which every
assertion fails.  `none` is the panic. -/
def sortKey {T : Type} (asT : Value → Option T) (mem : Memory) (col : String) (r : row) :
    Option T :=
  (r.get mem col).bind asT

/-- The closure `quickSort` hands to `sort.Slice`, on the two rows at `i` and `j`;
`none` is the panic of a failed assertion. -/
def less {T : Type} [LinearOrder T] (asT : Value → Option T) (mem : Memory)
    (col : String) (descendingOrder : Bool) (ri rj : row) : Option Bool :=
  match sortKey asT mem col ri with
  | none => none
  | some a =>
    match sortKey asT mem col rj with
    | none => none
    | some b =>
      if descendingOrder then some (decide (a > b)) else some (decide (a < b))

/-- The inner loop `for j := i; j > a && less(j, j-1); j-- { swap(j, j-1) }` of the
library's insertion sort: `x` travels left through the sorted prefix, given here
nearest element first. -/
def insertLeft (lt : row → row → Option Bool) (x : row) : List row → Option (List row)
  | [] => some [x]
  | y :: ys =>
    match lt x y with
    | none => none
    | some true => (insertLeft lt x ys).map (fun placed => y :: placed)
    | some false => some (x :: y :: ys)

/-- The outer loop of the insertion sort: `sorted` is the prefix done so far, nearest
element first, `rest` the elements still to insert. -/
def insertionSort (lt : row → row → Option Bool) : List row → List row → Option (List row)
  | sorted, [] => some sorted.reverse
  | sorted, x :: rest =>
    match insertLeft lt x sorted with
    | none => none
    | some sorted1 => insertionSort lt sorted1 rest

/-- The library call `sort.Slice(rows, less)`, which is not code of the repository:
modelled by the insertion sort it runs on a slice of at most twelve elements
(`insertionSortLessFunc`); on longer slices the library runs another comparison sort
under the same contract.  A panic of the callback ends the sort. -/
def sortSlice (lt : row → row → Option Bool) (rows : List row) : Option (List row) :=
  insertionSort lt [] rows

/-- Go `quickSort[T]`: the slice after the in-place sort, or the panic of a failed
type assertion. -/
def quickSort {T : Type} [LinearOrder T] (asT : Value → Option T) (mem : Memory)
    (rows : List row) (col : String) (descendingOrder : Bool) : Outcome (List row) :=
  match sortSlice (less asT mem col descendingOrder) rows with
  | some sorted => .ok sorted
  | none => .panic .interfaceConversion

/-! ## Loading -/

/-- The library call `strings.Split(path, ".")` on the characters of the path, with
`cur` the segment under way, last character first: a dot closes the segment. -/
def splitDot.go : List Char → List Char → List (List Char)
  | cur, [] => [cur.reverse]
  | cur, c :: cs =>
    if c = '.' then cur.reverse :: splitDot.go [] cs
    else splitDot.go (c :: cur) cs

/-- The segments `strings.Split(path, ".")` returns. -/
def splitDot (path : List Char) : List (List Char) :=
  splitDot.go [] path

/-- How `loadDB` ends: a store with the maps the decoder made, `errNotAJsonFile`, one
of the two errors made with `fmt.Errorf` around a cause, or a panic. -/
inductive LoadResult where
  | ok (mem : Memory) (db : database)
  | err (e : DbError)
  | couldNotRead (cause : String)
  | couldNotDecode (cause : String)
  | panic (p : Panic)

/-- The part of `loadDB` after the extension check: `os.Open`, then the JSON decoder
into `database.Tables`.  The file system and the decoder are parameters. -/
def loadDB.readAndDecode {File : Type} (osOpen : String → Except String File)
    (jsonDecode : File → Except String (Memory × (table → Option (List row))))
    (path : String) : LoadResult :=
  match osOpen path with
  | .error cause => .couldNotRead cause
  | .ok content =>
    match jsonDecode content with
    | .error cause => .couldNotDecode cause
    | .ok decoded => .ok decoded.1 { Tables := decoded.2 }

/-- Go `loadDB`: the check `s[len(s)-1] != "json"` on the segments of the path, then the
read. -/
def loadDB {File : Type} (osOpen : String → Except String File)
    (jsonDecode : File → Except String (Memory × (table → Option (List row))))
    (path : String) : LoadResult :=
  match (splitDot path.data).getLast? with
  | none => .panic .indexOutOfRange
  | some ext =>
    if ext ≠ "json".data then .err .errNotAJsonFile
    else loadDB.readAndDecode osOpen jsonDecode path

/-! ## Specification vocabulary -/

/-- The row carries an `id` column whose value equals `x`. -/
def idIs (mem : Memory) (x : Int) (r : row) : Bool :=
  match r.get mem "id" with
  | some v => anyEqFloat64 v x
  | none => false

/-- The row has no `id` column. -/
def lacksId (mem : Memory) (r : row) : Bool :=
  (r.get mem "id").isNone

/-- The in-order scan for `x` ends at this row: it lacks `id` or its id equals `x`. -/
def stopsScan (mem : Memory) (x : Int) (r : row) : Bool :=
  lacksId mem r || idIs mem x r

/-- Successive `AddRow` calls on one table, one per body, nothing in between. -/
def AddRows (mem : Memory) (db : database) (name : table) (bodies : List row) :
    Memory × database :=
  bodies.foldl (fun s b => ((AddRow s.1 s.2 name b).1, (AddRow s.1 s.2 name b).2.1))
    (mem, db)

/-- The row carries a numeric `id`, and this is it. -/
def numericId (mem : Memory) (r : row) : Option Int :=
  assertFloat64 (r.get mem "id")

/-- The dynamic type of the value is comparable: it is nil, a `bool`, a `float64`
or a `string`, not a slice or a map. -/
def Value.comparable : Value → Bool
  | .arr _ => false
  | .obj _ => false
  | _ => true

/-- The row carries column `c` and its value there is `v`. -/
def colIs (mem : Memory) (c : String) (v : Value) (r : row) : Bool :=
  match r.get mem c with
  | some val => decide (val = v)
  | none => false

/-- The id of `a` is a number below the number that is the id of `b`. -/
def idLt (mem : Memory) (a b : row) : Bool :=
  match numericId mem a, numericId mem b with
  | some x, some y => decide (x < y)
  | _, _ => false

/-- Every row carries a numeric `id` and the ids increase strictly along the
sequence. -/
def increasingIds (mem : Memory) (rows : List row) : Prop :=
  (∀ r ∈ rows, (numericId mem r).isSome = true) ∧
  rows.Pairwise (fun a b => idLt mem a b = true)

/-- Every row carries an `id` column and no two rows hold the same value there. -/
def distinctIds (mem : Memory) (rows : List row) : Prop :=
  (∀ r ∈ rows, lacksId mem r = false) ∧
  rows.Pairwise (fun a b => a.get mem "id" ≠ b.get mem "id")

/-- Store `after` has the table names of store `before`, and in every table other
than `t` the same maps in the same order. -/
def sameOutside (t : table) (before after : database) : Prop :=
  (∀ n, (after.Tables n).isSome = (before.Tables n).isSome) ∧
  (∀ n, n ≠ t → after.Tables n = before.Tables n)

/-- The path ends in the five characters `.json`. -/
def endsInDotJson (path : String) : Prop :=
  ∃ front : List Char, path.data = front ++ ".json".data

/-- A store with the single table `name` holding `rows`. -/
def oneTable (name : table) (rows : List row) : database :=
  { Tables := fun n => if n = name then some rows else none }

/-- A store with the two tables `n1` and `n2`. -/
def twoTables (n1 : table) (rows1 : List row) (n2 : table) (rows2 : List row) :
    database :=
  { Tables := fun n => if n = n1 then some rows1 else if n = n2 then some rows2 else none }

/-- The memory whose map objects, at the addresses 0, 1, 2, ..., hold the contents
listed; every other address holds the empty map. -/
def memOf (objects : List Fields) : Memory :=
  fun a => (objects[a]?).getD []

end FakeJason

namespace FakeJason

/-! ## Basic facts about the data model -/

theorem rows_of_tables {db : database} {t : table} {rows : List row}
    (ht : db.Tables t = some rows) : db.rows t = rows := by
  simp [database.rows, ht]

theorem tableExists_of_tables {db : database} {t : table} {rows : List row}
    (ht : db.Tables t = some rows) : tableExists db t = true := by
  simp [tableExists, ht]

theorem index_append_length (pre : List row) (r : row) (rest : List row) :
    index (pre ++ r :: rest) (pre.length : Int) = some r := by
  have h : (pre ++ r :: rest)[pre.length]? = some r := by
    rw [List.getElem?_append_right (Nat.le_refl _)]
    simp
  simpa [index] using h

theorem fields_get_set (b : Fields) (c k : String) (v : Value) :
    Fields.get (Fields.set b k v) c = if c = k then some v else Fields.get b c := by
  unfold Fields.set Fields.get
  by_cases hc : c = k
  · subst hc
    simp [List.lookup]
  · have hne : (c == k) = false := by simpa using hc
    simp only [List.lookup, hne, if_neg hc]
    induction b with
    | nil => simp
    | cons p ps ih =>
      obtain ⟨a, w⟩ := p
      by_cases hak : a = k
      · subst hak
        have : (c == a) = false := by simpa using hc
        simp [List.filter, List.lookup, this, ih]
      · have hak2 : (a != k) = true := by simpa using hak
        by_cases hca : c = a
        · subst hca
          simp [List.filter, List.lookup, hak2]
        · have : (c == a) = false := by simpa using hca
          simp [List.filter, List.lookup, hak2, this, ih]

/-- A write through a map that is not nil succeeds; it changes the contents at the
address written and nowhere else. -/
theorem row_set_ref (a : Nat) (mem : Memory) (col : String) (v : Value) :
    ∃ mem1, (row.ref a).set mem col v = some mem1 ∧
      mem1 a = Fields.set (mem a) col v ∧ ∀ b, b ≠ a → mem1 b = mem b := by
  refine ⟨_, rfl, by simp, ?_⟩
  intro b hb
  simp [hb]

theorem fields_of_other (mem mem1 : Memory) (a : Nat) (r : row)
    (hother : ∀ b, b ≠ a → mem1 b = mem b) (hr : r ≠ .ref a) :
    r.fields mem1 = r.fields mem := by
  cases r with
  | nil => rfl
  | ref b =>
    have hb : b ≠ a := fun e => hr (by rw [e])
    simp [row.fields, hother b hb]

theorem get_of_other (mem mem1 : Memory) (a : Nat) (r : row) (col : String)
    (hother : ∀ b, b ≠ a → mem1 b = mem b) (hr : r ≠ .ref a) :
    r.get mem1 col = r.get mem col := by
  unfold row.get
  rw [fields_of_other mem mem1 a r hother hr]

/-- The first element on which `p` holds, found by position. -/
theorem find_at_first {α : Type} (p : α → Bool) (l : List α) (k : Nat) (hk : k < l.length)
    (hbefore : ∀ j (hj : j < k), p (l[j]) = false)
    (hp : p (l[k]) = true) : l.find? p = some (l[k]) := by
  induction l generalizing k with
  | nil => simp at hk
  | cons a as ih =>
    cases k with
    | zero =>
      simp only [List.getElem_cons_zero] at hp ⊢
      simp [List.find?, hp]
    | succ k =>
      have h0 : p a = false := by
        have := hbefore 0 (by omega)
        simpa using this
      have hk1 : k < as.length := by simpa using hk
      have := ih k hk1 (fun j hj => by
        have := hbefore (j + 1) (by omega)
        simpa using this) (by simpa using hp)
      simpa [List.find?, h0] using this

/-! ## Retrieval by id -/

/-- The scan of `GetRowById` in closed form: it ends at the first row that lacks `id`
or carries the requested id. -/
theorem GetRowById_loop_eq (mem : Memory) (id : Int) (pre rest : List row) :
    GetRowById.loop mem (pre ++ rest) id pre.length rest =
      match rest.find? (stopsScan mem id) with
      | none => .err .errRecordNotFound
      | some r => if lacksId mem r then .err .errColumnNotFound else .ok r := by
  induction rest generalizing pre with
  | nil => simp [GetRowById.loop]
  | cons r rest ih =>
    unfold GetRowById.loop
    cases hg : r.get mem "id" with
    | none => simp [List.find?, stopsScan, lacksId, hg]
    | some val =>
      by_cases hv : anyEqFloat64 val id = true
      · simp [List.find?, stopsScan, lacksId, idIs, hg, hv, index_append_length]
      · have hv2 : anyEqFloat64 val id = false := by simpa using hv
        have := ih (pre ++ [r])
        simp only [List.append_assoc, List.singleton_append, List.length_append,
          List.length_singleton] at this
        simp [List.find?, stopsScan, lacksId, idIs, hg, hv2, this]

theorem GetRowById_eq (mem : Memory) (db : database) (t : table) (x : Int)
    (rows : List row) (ht : db.Tables t = some rows) :
    GetRowById mem db t x = (db,
      match rows.find? (stopsScan mem x) with
      | none => .err .errRecordNotFound
      | some r => if lacksId mem r then .err .errColumnNotFound else .ok r) := by
  have := GetRowById_loop_eq mem x [] rows
  simp only [List.nil_append, List.length_nil] at this
  simp [GetRowById, tableExists_of_tables ht, rows_of_tables ht, this]

/-- C1: on an existing table, `GetRowById` is decided by the first row that lacks
`id` or whose id equals `x` (an id equals `x` only when it is the number `x`): the
row is returned when its id equals `x`, the lookup fails with `errColumnNotFound`
when it lacks `id`, and with `errRecordNotFound` when there is no such row. -/
theorem GetRowById_first_stop (mem : Memory) (db : database) (t : table) (x : Int)
    (rows : List row) (ht : db.Tables t = some rows) :
    (∀ (r : row) (v : Value), r.get mem "id" = some v →
      (idIs mem x r = true ↔ v = .num x)) ∧
    (∀ (k : Nat) (hk : k < rows.length),
      (∀ (j : Nat) (hj : j < k), stopsScan mem x (rows[j]) = false) →
      (idIs mem x (rows[k]) = true →
        GetRowById mem db t x = (db, .ok (rows[k]))) ∧
      (lacksId mem (rows[k]) = true →
        GetRowById mem db t x = (db, .err .errColumnNotFound))) ∧
    ((∀ (k : Nat) (hk : k < rows.length), stopsScan mem x (rows[k]) = false) →
      GetRowById mem db t x = (db, .err .errRecordNotFound)) := by
  refine ⟨?_, ?_, ?_⟩
  · intro r v hv
    cases v <;> simp [idIs, hv, anyEqFloat64]
  · intro k hk hbefore
    constructor
    · intro hid
      have hstop : stopsScan mem x (rows[k]) = true := by simp [stopsScan, hid]
      have hl : lacksId mem (rows[k]) = false := by
        unfold idIs at hid
        unfold lacksId
        cases hg : (rows[k]).get mem "id" with
        | none => simp [hg] at hid
        | some v => simp
      rw [GetRowById_eq mem db t x rows ht, find_at_first _ rows k hk hbefore hstop]
      simp [hl]
    · intro hl
      have hstop : stopsScan mem x (rows[k]) = true := by simp [stopsScan, hl]
      rw [GetRowById_eq mem db t x rows ht, find_at_first _ rows k hk hbefore hstop]
      simp [hl]
  · intro hnone
    have hfind : rows.find? (stopsScan mem x) = none := by
      rw [List.find?_eq_none]
      intro r hr
      obtain ⟨k, hk, rfl⟩ := List.getElem_of_mem hr
      have := hnone k hk
      simpa using this
    rw [GetRowById_eq mem db t x rows ht, hfind]

/-- C1 at work: in `[{name:"a"}, {id:1}, {name:"b"}]` the row without `id` in front
aborts the lookup of id 1; in `[{id:1}, {name:"b"}]` the one behind the match does
not. -/
theorem GetRowById_first_stop_witness :
    GetRowById (memOf [[("name", .str "a")], [("id", .num 1)], [("name", .str "b")]])
        (oneTable "users" [.ref 0, .ref 1, .ref 2]) "users" 1
      = (oneTable "users" [.ref 0, .ref 1, .ref 2], .err .errColumnNotFound) ∧
    GetRowById (memOf [[("name", .str "a")], [("id", .num 1)], [("name", .str "b")]])
        (oneTable "users" [.ref 1, .ref 2]) "users" 1
      = (oneTable "users" [.ref 1, .ref 2], .ok (.ref 1)) :=
  ⟨((GetRowById_first_stop
      (memOf [[("name", .str "a")], [("id", .num 1)], [("name", .str "b")]])
      (oneTable "users" [.ref 0, .ref 1, .ref 2])
      "users" 1 [.ref 0, .ref 1, .ref 2] rfl).2.1
      0 (by decide) (fun j hj => absurd hj (by omega))).2 (by decide),
   ((GetRowById_first_stop
      (memOf [[("name", .str "a")], [("id", .num 1)], [("name", .str "b")]])
      (oneTable "users" [.ref 1, .ref 2])
      "users" 1 [.ref 1, .ref 2] rfl).2.1
      0 (by decide) (fun j hj => absurd hj (by omega))).1 (by decide)⟩

/-! ## Insertion -/

theorem setRows_tables (db : database) (t : table) (rs : List row) :
    (db.setRows t rs).Tables t = some rs := by
  simp [database.setRows]

theorem setRows_rows (db : database) (t : table) (rs : List row) :
    (db.setRows t rs).rows t = rs := by
  simp [database.rows, database.setRows]

theorem setRows_setRows (db : database) (t : table) (a b : List row) :
    (db.setRows t a).setRows t b = db.setRows t b := by
  unfold database.setRows
  congr 1
  funext n
  by_cases h : n = t <;> simp [h]

theorem index_concat_last (pre : List row) (r : row) (i : Int)
    (hi : i = ((pre ++ [r]).length : Int) - 1) : index (pre ++ [r]) i = some r := by
  have h := index_append_length pre r []
  have e : i = (pre.length : Int) := by
    simp only [List.length_append, List.length_singleton] at hi; omega
  rw [e]; exact h

theorem index_concat_prev (pre : List row) (q r : row) :
    index (pre ++ [q] ++ [r]) (((pre ++ [q] ++ [r]).length : Int) - 2) = some q := by
  have h := index_append_length pre q [r]
  have e : (((pre ++ [q] ++ [r]).length : Int) - 2) = (pre.length : Int) := by
    simp only [List.length_append, List.length_singleton]; omega
  rw [e]; simpa using h

theorem roundFloat64_small (z : Int) (h : z.natAbs < 2 ^ 53) : roundFloat64 z = z := by
  unfold roundFloat64
  have : excessBits z.natAbs z.natAbs = 0 := by
    cases hz : z.natAbs with
    | zero => rfl
    | succ k =>
      rw [hz] at h
      simp only [excessBits]
      rw [if_pos h]
  simp [this]

theorem float64Add_small (n : Int) (h : (n + 1).natAbs < 2 ^ 53) :
    float64Add n 1 = n + 1 :=
  roundFloat64_small _ h

theorem GetRowById_fst (mem : Memory) (db : database) (t : table) (x : Int) :
    (GetRowById mem db t x).1 = db := by
  unfold GetRowById
  split <;> rfl

theorem GetRowById_no_panic (mem : Memory) (db : database) (t : table) (x : Int)
    (p : Panic) : (GetRowById mem db t x).2 ≠ .panic p := by
  cases ht : db.Tables t with
  | none => simp [GetRowById, tableExists, ht]
  | some rows =>
    rw [GetRowById_eq mem db t x rows ht]
    cases rows.find? (stopsScan mem x) with
    | none => simp
    | some r => by_cases h : lacksId mem r = true <;> simp [h]

theorem assertFloat64_eq_some (v : Option Value) (n : Int) :
    assertFloat64 v = some n ↔ v = some (.num n) := by
  cases v with
  | none => simp [assertFloat64]
  | some w => cases w <;> simp [assertFloat64, asFloat64]

/-- The memory after the write of `id` through the map at address `a`. -/
theorem get_after_write (mem : Memory) (a : Nat) (v : Value) (c : String) :
    (row.ref a).get (fun b => if b = a then Fields.set (mem a) "id" v else mem b) c
      = if c = "id" then some v else (row.ref a).get mem c := by
  simp [row.get, row.fields, fields_get_set]

/-- `AddRow` on a table whose last row carries a numeric id, with a body that is not
nil: the body joins the table, the id is written through it, and the result is the
lookup of that id. -/
theorem AddRow_eq (mem : Memory) (db : database) (t : table) (a : Nat) (init : List row)
    (last : row) (n : Int) (ht : db.Tables t = some (init ++ [last]))
    (hid : last.get mem "id" = some (.num n)) :
    AddRow mem db t (.ref a) =
      ((fun b => if b = a then Fields.set (mem a) "id" (.num (float64Add n 1)) else mem b),
        db.setRows t (init ++ [last] ++ [.ref a]),
        (GetRowById
          (fun b => if b = a then Fields.set (mem a) "id" (.num (float64Add n 1)) else mem b)
          (db.setRows t (init ++ [last] ++ [.ref a])) t (float64Add n 1)).2) := by
  have h0 : index (init ++ [last] ++ [row.ref a])
      (((init ++ [last] ++ [row.ref a]).length : Int) - 1) = some (.ref a) :=
    index_concat_last _ _ _ rfl
  have h1 : assertFloat64 (last.get mem "id") = some n := by
    simp [assertFloat64, hid, asFloat64]
  have h2 : assertFloat64 ((row.ref a).get
      (fun b => if b = a then Fields.set (mem a) "id" (.num (float64Add n 1)) else mem b)
      "id") = some (float64Add n 1) := by
    rw [get_after_write]
    simp [assertFloat64, asFloat64]
  simp only [AddRow, tableExists_of_tables ht, rows_of_tables ht, setRows_rows,
    Bool.not_true, Bool.false_eq_true, if_false, h0, index_concat_prev, h1, row.set, h2,
    GetRowById_fst]

theorem AddRow_absent (mem : Memory) (db : database) (t : table) (b : row)
    (ht : db.Tables t = none) : AddRow mem db t b = (mem, db, .err .errTableNotFound) := by
  simp [AddRow, tableExists, ht]

theorem AddRow_empty (mem : Memory) (db : database) (t : table) (b : row)
    (ht : db.Tables t = some []) :
    AddRow mem db t b = (mem, db.setRows t [b], .panic .indexOutOfRange) := by
  simp [AddRow, tableExists_of_tables ht, rows_of_tables ht, setRows_rows, index]

theorem AddRow_bad_last (mem : Memory) (db : database) (t : table) (b : row)
    (init : List row) (last : row) (ht : db.Tables t = some (init ++ [last]))
    (hid : assertFloat64 (last.get mem "id") = none) :
    AddRow mem db t b
      = (mem, db.setRows t (init ++ [last] ++ [b]), .panic .interfaceConversion) := by
  have h0 : index (init ++ [last] ++ [b]) (((init ++ [last] ++ [b]).length : Int) - 1)
      = some b := index_concat_last _ _ _ rfl
  simp only [AddRow, tableExists_of_tables ht, rows_of_tables ht, setRows_rows,
    Bool.not_true, Bool.false_eq_true, if_false, h0, index_concat_prev, hid]

theorem AddRow_nil_body (mem : Memory) (db : database) (t : table)
    (init : List row) (last : row) (n : Int) (ht : db.Tables t = some (init ++ [last]))
    (hid : last.get mem "id" = some (.num n)) :
    AddRow mem db t .nil
      = (mem, db.setRows t (init ++ [last] ++ [.nil]), .panic .nilMapWrite) := by
  have h0 : index (init ++ [last] ++ [row.nil])
      (((init ++ [last] ++ [row.nil]).length : Int) - 1) = some .nil :=
    index_concat_last _ _ _ rfl
  have h1 : assertFloat64 (last.get mem "id") = some n := by
    simp [assertFloat64, hid, asFloat64]
  simp only [AddRow, tableExists_of_tables ht, rows_of_tables ht, setRows_rows,
    Bool.not_true, Bool.false_eq_true, if_false, h0, index_concat_prev, h1, row.set]

/-- A call of `AddRow` that returns a row found a non-empty table whose last row
carries a numeric id, and was given a map that is not nil. -/
theorem AddRow_ok_inv (mem : Memory) (db : database) (t : table) (b r : row)
    (hok : (AddRow mem db t b).2.2 = .ok r) :
    ∃ init last n a, db.Tables t = some (init ++ [last]) ∧
      last.get mem "id" = some (.num n) ∧ b = .ref a := by
  cases ht : db.Tables t with
  | none => simp [AddRow_absent mem db t b ht] at hok
  | some rows =>
    rcases List.eq_nil_or_concat rows with rfl | ⟨init, last, rfl⟩
    · simp [AddRow_empty mem db t b ht] at hok
    · rw [List.concat_eq_append] at ht ⊢
      cases hid : assertFloat64 (last.get mem "id") with
      | none => simp [AddRow_bad_last mem db t b init last ht hid] at hok
      | some n =>
        have hid2 := (assertFloat64_eq_some _ _).1 hid
        cases b with
        | nil => simp [AddRow_nil_body mem db t init last n ht hid2] at hok
        | ref a => exact ⟨init, last, n, a, rfl, hid2, rfl⟩

/-- What `AddRow` leaves behind on a table whose last row carries the numeric id `n`,
given a map that is not nil. -/
theorem AddRow_state (mem : Memory) (db : database) (t : table) (a : Nat)
    (rows : List row) (last : row) (n : Int) (ht : db.Tables t = some rows)
    (hlast : rows.getLast? = some last) (hid : last.get mem "id" = some (.num n)) :
    (AddRow mem db t (.ref a)).1 a = Fields.set (mem a) "id" (.num (float64Add n 1)) ∧
    (∀ b, b ≠ a → (AddRow mem db t (.ref a)).1 b = mem b) ∧
    (AddRow mem db t (.ref a)).2.1 = db.setRows t (rows ++ [.ref a]) ∧
    (∀ p, (AddRow mem db t (.ref a)).2.2 ≠ .panic p) := by
  obtain ⟨init, rfl⟩ := List.getLast?_eq_some_iff.1 hlast
  rw [AddRow_eq mem db t a init last n ht hid]
  refine ⟨by simp, ?_, rfl, ?_⟩
  · intro b hb
    simp [hb]
  · intro p
    exact GetRowById_no_panic _ _ _ _ p

theorem AddRows_cons (mem : Memory) (db : database) (t : table) (b : row)
    (bs : List row) :
    AddRows mem db t (b :: bs)
      = AddRows (AddRow mem db t b).1 (AddRow mem db t b).2.1 t bs := by
  simp [AddRows]

/-- Successive `AddRow` calls with distinct maps that are not rows of the table, on
ids that stay below `2^53` in magnitude: the maps join the table in turn, the `i`-th
with the id `n + 1 + i` written into it, and the rows that were there keep their
contents. -/
theorem AddRows_spec (mem : Memory) (db : database) (t : table) (addrs : List Nat)
    (rows : List row) (last : row) (n : Int) (ht : db.Tables t = some rows)
    (hlast : rows.getLast? = some last) (hid : last.get mem "id" = some (.num n))
    (hnodup : addrs.Nodup) (hfresh : ∀ a ∈ addrs, row.ref a ∉ rows)
    (hsmall : ∀ i : Nat, i < addrs.length → (n + 1 + i).natAbs < 2 ^ 53) :
    (AddRows mem db t (addrs.map .ref)).2.Tables t = some (rows ++ addrs.map .ref) ∧
    (∀ r ∈ rows, r.fields (AddRows mem db t (addrs.map .ref)).1 = r.fields mem) ∧
    (∀ (i : Nat) (hi : i < addrs.length),
      (AddRows mem db t (addrs.map .ref)).1 (addrs[i])
        = Fields.set (mem (addrs[i])) "id" (.num (n + 1 + i))) := by
  induction addrs generalizing mem db rows last n with
  | nil =>
    refine ⟨by simpa [AddRows] using ht, fun r _ => rfl, ?_⟩
    intro i hi
    simp at hi
  | cons a addrs ih =>
    obtain ⟨hwa, hwo, hdb, _⟩ := AddRow_state mem db t a rows last n ht hlast hid
    have h0 : float64Add n 1 = n + 1 := by
      have := hsmall 0 (by simp)
      exact float64Add_small n (by simpa using this)
    rw [h0] at hwa
    have hnd := List.nodup_cons.1 hnodup
    have harows : row.ref a ∉ rows := hfresh a (List.mem_cons_self _ _)
    have hnewid : (row.ref a).get (AddRow mem db t (.ref a)).1 "id"
        = some (.num (n + 1)) := by
      simp [row.get, row.fields, hwa, fields_get_set]
    obtain ⟨ih1, ih2, ih3⟩ := ih (AddRow mem db t (.ref a)).1 (AddRow mem db t (.ref a)).2.1
      (rows ++ [.ref a]) (.ref a) (n + 1)
      (by rw [hdb, setRows_tables]) (by simp) hnewid hnd.2
      (by
        intro b hb hmem
        rcases List.mem_append.1 hmem with h | h
        · exact hfresh b (List.mem_cons_of_mem _ hb) h
        · simp only [List.mem_singleton, row.ref.injEq] at h
          subst h
          exact hnd.1 hb)
      (by
        intro i hi
        have := hsmall (i + 1) (by simpa using hi)
        have e : n + 1 + 1 + (i : Int) = n + 1 + ((i + 1 : Nat) : Int) := by
          push_cast; ring
        rw [e]; exact this)
    simp only [List.map_cons, AddRows_cons]
    refine ⟨by simpa using ih1, ?_, ?_⟩
    · intro r hr
      rw [ih2 r (List.mem_append_left _ hr)]
      exact fields_of_other mem _ a r hwo (fun e => harows (e ▸ hr))
    · intro i hi
      cases i with
      | zero =>
        have := ih2 (.ref a) (by simp)
        simp only [row.fields] at this
        simpa [this] using hwa
      | succ i =>
        have hi2 : i < addrs.length := by simpa using hi
        have hne : addrs[i] ≠ a := fun e => hnd.1 (e ▸ List.getElem_mem hi2)
        have := ih3 i hi2
        simp only [List.getElem_cons_succ]
        rw [this, hwo _ hne]
        have e : n + 1 + 1 + (i : Int) = n + 1 + ((i + 1 : Nat) : Int) := by
          push_cast; ring
        rw [e]

theorem numericId_of_fields (mem : Memory) (a : Nat) (m : Fields) (n : Int)
    (h : mem a = Fields.set m "id" (.num n)) : numericId mem (.ref a) = some n := by
  simp [numericId, row.get, row.fields, h, fields_get_set, assertFloat64, asFloat64]

theorem numericId_of_same_fields (mem mem1 : Memory) (r : row)
    (h : r.fields mem1 = r.fields mem) : numericId mem1 r = numericId mem r := by
  simp [numericId, row.get, h]

/-- C2, amended: on a non-empty table whose last row carries the numeric id `n`,
`AddRow` with a map that is not nil and not already a row of the table leaves the
old rows in place with their contents and appends exactly one row, that map, with
its `id` column set to the `float64` sum of `n` and 1 (any `id` it had is
overwritten, its other columns are kept), and does not panic; the sum is `n + 1`
while that is below `2^53` in magnitude.  Successive calls with distinct such maps
assign `n + 1`, `n + 2`, ..., each larger than all assigned before and than `n`, as
long as these stay below `2^53`.  The rule is last id plus one, not maximum plus
one: after ids 5, 1 the next id is 2. -/
theorem AddRow_appends_next_id (mem : Memory) (db : database) (t : table) (a : Nat)
    (rows : List row) (last : row) (n : Int) (ht : db.Tables t = some rows)
    (hlast : rows.getLast? = some last) (hid : last.get mem "id" = some (.num n))
    (hfresh : row.ref a ∉ rows) :
    (AddRow mem db t (.ref a)).2.1.Tables t = some (rows ++ [.ref a]) ∧
    (∀ r ∈ rows, r.fields (AddRow mem db t (.ref a)).1 = r.fields mem) ∧
    (∀ c, (row.ref a).get (AddRow mem db t (.ref a)).1 c
        = if c = "id" then some (.num (float64Add n 1)) else (row.ref a).get mem c) ∧
    ((n + 1).natAbs < 2 ^ 53 → float64Add n 1 = n + 1) ∧
    (∀ p, (AddRow mem db t (.ref a)).2.2 ≠ .panic p) ∧
    (∀ addrs : List Nat, addrs.Nodup → (∀ b ∈ addrs, row.ref b ∉ rows) →
      (∀ i : Nat, i < addrs.length → (n + 1 + i).natAbs < 2 ^ 53) →
      (AddRows mem db t (addrs.map .ref)).2.Tables t = some (rows ++ addrs.map .ref) ∧
      (∀ r ∈ rows, r.fields (AddRows mem db t (addrs.map .ref)).1 = r.fields mem) ∧
      (∀ (i : Nat) (hi : i < addrs.length),
        numericId (AddRows mem db t (addrs.map .ref)).1 (.ref (addrs[i]))
          = some (n + 1 + i) ∧
        idLt (AddRows mem db t (addrs.map .ref)).1 last (.ref (addrs[i])) = true) ∧
      (∀ (i j : Nat) (hi : i < addrs.length) (hj : j < addrs.length), i < j →
        idLt (AddRows mem db t (addrs.map .ref)).1 (.ref (addrs[i])) (.ref (addrs[j]))
          = true)) ∧
    (AddRow (memOf [[("id", .num 5)], [("id", .num 1)], []]) (oneTable "t" [.ref 0, .ref 1])
        "t" (.ref 2)).1 2 = [("id", .num 2)] := by
  obtain ⟨hwa, hwo, hdb, hnp⟩ := AddRow_state mem db t a rows last n ht hlast hid
  refine ⟨by rw [hdb, setRows_tables], ?_, ?_, float64Add_small n, hnp, ?_, by decide⟩
  · intro r hr
    exact fields_of_other mem _ a r hwo (fun e => hfresh (e ▸ hr))
  · intro c
    simp only [row.get, row.fields, hwa, fields_get_set]
  · intro addrs hnodup hfr hsmall
    obtain ⟨h1, h2, h3⟩ := AddRows_spec mem db t addrs rows last n ht hlast hid hnodup hfr
      hsmall
    have hnum : ∀ (i : Nat) (hi : i < addrs.length),
        numericId (AddRows mem db t (addrs.map .ref)).1 (.ref (addrs[i]))
          = some (n + 1 + i) :=
      fun i hi => numericId_of_fields _ _ _ _ (h3 i hi)
    have hlastmem : last ∈ rows := List.mem_of_getLast?_eq_some hlast
    have hnlast : numericId (AddRows mem db t (addrs.map .ref)).1 last = some n := by
      rw [numericId_of_same_fields _ _ _ (h2 last hlastmem)]
      simp [numericId, hid, assertFloat64, asFloat64]
    refine ⟨h1, h2, ?_, ?_⟩
    · intro i hi
      refine ⟨hnum i hi, ?_⟩
      simp only [idLt, hnlast, hnum i hi, decide_eq_true_eq]
      omega
    · intro i j hi hj hij
      simp only [idLt, hnum i hi, hnum j hj, decide_eq_true_eq]
      omega

/-- C2 at work: adding the map `{name:"c"}` to the ids 1, 2 appends it with id 3. -/
theorem AddRow_appends_next_id_witness :
    (AddRow (memOf [[("id", .num 1)], [("id", .num 2)], [("name", .str "c")]])
        (oneTable "users" [.ref 0, .ref 1]) "users" (.ref 2)).2.1.Tables "users"
      = some ([.ref 0, .ref 1] ++ [.ref 2]) ∧
    float64Add 2 1 = 2 + 1 :=
  ⟨(AddRow_appends_next_id (memOf [[("id", .num 1)], [("id", .num 2)], [("name", .str "c")]])
      (oneTable "users" [.ref 0, .ref 1]) "users" 2 [.ref 0, .ref 1] (.ref 1) 2
      rfl rfl rfl (by decide)).1,
   (AddRow_appends_next_id (memOf [[("id", .num 1)], [("id", .num 2)], [("name", .str "c")]])
      (oneTable "users" [.ref 0, .ref 1]) "users" 2 [.ref 0, .ref 1] (.ref 1) 2
      rfl rfl rfl (by decide)).2.2.2.1 (by decide)⟩

/-- C2 fails as stated, three ways.  After the id `2^53` the `float64` sum with 1 is
`2^53` again, so the new row gets the id the last row has.  A nil body is appended
and then the write of its id panics.  A body that is already a row of the table is
written through, so the old row at index 0 changes from id 1 to id 3. -/
theorem AddRow_not_always_next_id :
    (AddRow (memOf [[("id", .num 9007199254740992)], [("name", .str "z")]])
        (oneTable "users" [.ref 0]) "users" (.ref 1)).1 1
      = [("id", .num 9007199254740992), ("name", .str "z")] ∧
    (AddRow (memOf [[("id", .num 1)], [("id", .num 2)]])
        (oneTable "users" [.ref 0, .ref 1]) "users" .nil).2.2 = .panic .nilMapWrite ∧
    (AddRow (memOf [[("id", .num 1)], [("id", .num 2)]])
        (oneTable "users" [.ref 0, .ref 1]) "users" .nil).2.1.Tables "users"
      = some [.ref 0, .ref 1, .nil] ∧
    (AddRow (memOf [[("id", .num 1)], [("id", .num 2)]])
        (oneTable "users" [.ref 0, .ref 1]) "users" (.ref 0)).2.1.Tables "users"
      = some [.ref 0, .ref 1, .ref 0] ∧
    (AddRow (memOf [[("id", .num 1)], [("id", .num 2)]])
        (oneTable "users" [.ref 0, .ref 1]) "users" (.ref 0)).1 0 = [("id", .num 3)] ∧
    memOf [[("id", .num 1)], [("id", .num 2)]] 0 = [("id", .num 1)] := by
  decide

/-- C3 fails on the code: with rows `{id:2,name:"a"}`, `{id:1}` the call assigns id 2
to the body `{name:"z"}` and succeeds, but returns the old row `{id:2,name:"a"}`
(the map at address 0), while the row it inserted, last in the table, is the body
(the map at address 2), now `{id:2,name:"z"}`. -/
theorem AddRow_returns_older_row :
    (AddRow (memOf [[("id", .num 2), ("name", .str "a")], [("id", .num 1)],
        [("name", .str "z")]]) (oneTable "users" [.ref 0, .ref 1]) "users" (.ref 2)).2.2
      = .ok (.ref 0) ∧
    ((AddRow (memOf [[("id", .num 2), ("name", .str "a")], [("id", .num 1)],
        [("name", .str "z")]]) (oneTable "users" [.ref 0, .ref 1]) "users"
        (.ref 2)).2.1.rows "users").getLast? = some (.ref 2) ∧
    (AddRow (memOf [[("id", .num 2), ("name", .str "a")], [("id", .num 1)],
        [("name", .str "z")]]) (oneTable "users" [.ref 0, .ref 1]) "users" (.ref 2)).1 2
      = [("id", .num 2), ("name", .str "z")] ∧
    (AddRow (memOf [[("id", .num 2), ("name", .str "a")], [("id", .num 1)],
        [("name", .str "z")]]) (oneTable "users" [.ref 0, .ref 1]) "users" (.ref 2)).1 0
      = [("id", .num 2), ("name", .str "a")] := by
  decide

/-! ## Deletion and update by id -/

theorem stopsScan_false (mem : Memory) (x : Int) (r : row)
    (h : stopsScan mem x r = false) :
    ∃ v, r.get mem "id" = some v ∧ anyEqFloat64 v x = false := by
  simp only [stopsScan, lacksId, idIs, Bool.or_eq_false_iff] at h
  cases hg : r.get mem "id" with
  | none => simp [hg] at h
  | some v => exact ⟨v, rfl, by simpa [hg] using h.2⟩

theorem idIs_true (mem : Memory) (x : Int) (r : row) (h : idIs mem x r = true) :
    ∃ v, r.get mem "id" = some v ∧ anyEqFloat64 v x = true := by
  unfold idIs at h
  cases hg : r.get mem "id" with
  | none => simp [hg] at h
  | some v => exact ⟨v, rfl, by simpa [hg] using h⟩

/-- The scan of `DeleteRowById` that meets the first row with the requested id `k`
rows further on, and no row without `id` before it, cuts the table at `i + k`. -/
theorem DeleteRowById_loop_at (mem : Memory) (db : database) (t : table) (x : Int)
    (i : Nat) (rest : List row) (k : Nat) (hk : k < rest.length)
    (hbefore : ∀ (j : Nat) (hj : j < k), stopsScan mem x (rest[j]) = false)
    (hid : idIs mem x (rest[k]) = true) :
    DeleteRowById.loop mem db t x i rest =
      (db.setRows t ((db.rows t).take (i + k) ++ (db.rows t).drop (i + k + 1)), .ok ()) := by
  induction rest generalizing i k with
  | nil => simp at hk
  | cons r rest ih =>
    unfold DeleteRowById.loop
    cases k with
    | zero =>
      obtain ⟨v, hv, he⟩ := idIs_true mem x r (by simpa using hid)
      simp [hv, he]
    | succ k =>
      obtain ⟨v, hv, he⟩ := stopsScan_false mem x r (by simpa using hbefore 0 (by omega))
      have := ih (i + 1) k (by simpa using hk)
        (fun j hj => by simpa using hbefore (j + 1) (by omega)) (by simpa using hid)
      simp only [hv, he, Bool.false_eq_true, if_false, this]
      have e : i + 1 + k = i + (k + 1) := by omega
      rw [e]

/-- C4: when the scan for `x` meets its first row with id `x` at index `k`, no row
without `id` before it, `DeleteRowById` succeeds and the table becomes the old
sequence without the element at `k`: one row shorter, the rows before `k` and the
rows after `k` as they were and in their order, later rows with id `x` included. -/
theorem DeleteRowById_removes_first (mem : Memory) (db : database) (t : table) (x : Int)
    (rows : List row) (k : Nat) (ht : db.Tables t = some rows) (hk : k < rows.length)
    (hbefore : ∀ (j : Nat) (hj : j < k), stopsScan mem x (rows[j]) = false)
    (hid : idIs mem x (rows[k]) = true) :
    DeleteRowById mem db t x = (db.setRows t (rows.eraseIdx k), .ok ()) ∧
    (DeleteRowById mem db t x).1.Tables t = some (rows.eraseIdx k) ∧
    (rows.eraseIdx k).length + 1 = rows.length ∧
    rows.eraseIdx k = rows.take k ++ rows.drop (k + 1) ∧
    rows = rows.take k ++ rows[k] :: rows.drop (k + 1) := by
  have hdel : DeleteRowById mem db t x = (db.setRows t (rows.eraseIdx k), .ok ()) := by
    have := DeleteRowById_loop_at mem db t x 0 rows k hk hbefore hid
    simp only [Nat.zero_add, rows_of_tables ht] at this
    simp [DeleteRowById, tableExists_of_tables ht, rows_of_tables ht, this,
      List.eraseIdx_eq_take_drop_succ]
  refine ⟨hdel, ?_, ?_, List.eraseIdx_eq_take_drop_succ rows k, ?_⟩
  · rw [hdel, setRows_tables]
  · rw [List.length_eraseIdx_of_lt hk]; omega
  · have h1 : rows.drop k = rows[k] :: rows.drop (k + 1) := by
      simp
    rw [← h1, List.take_append_drop]

/-- C4 at work: deleting id 2 from the rows with ids 1, 2, 3 leaves 1, 3. -/
theorem DeleteRowById_removes_first_witness :
    DeleteRowById (memOf [[("id", .num 1)], [("id", .num 2)], [("id", .num 3)]])
        (oneTable "users" [.ref 0, .ref 1, .ref 2]) "users" 2
      = ((oneTable "users" [.ref 0, .ref 1, .ref 2]).setRows "users"
          (List.eraseIdx [.ref 0, .ref 1, .ref 2] 1), .ok ()) ∧
    List.eraseIdx [row.ref 0, .ref 1, .ref 2] 1 = [.ref 0, .ref 2] :=
  ⟨(DeleteRowById_removes_first
      (memOf [[("id", .num 1)], [("id", .num 2)], [("id", .num 3)]])
      (oneTable "users" [.ref 0, .ref 1, .ref 2]) "users" 2
      [.ref 0, .ref 1, .ref 2] 1 rfl (by decide)
      (fun j hj => by
        have hj0 : j = 0 := by omega
        subst hj0
        rfl)
      (by decide)).1, by decide⟩

theorem index_set_self (rows : List row) (i : Nat) (b : row) (hi : i < rows.length) :
    index (rows.set i b) (i : Int) = some b := by
  simp [index, hi]

/-- The scan of `EditRowById` that meets the first row with the requested id `k` rows
further on, and no row without `id` before it, overwrites the element at `i + k`. -/
theorem EditRowById_loop_at (mem : Memory) (db : database) (t : table) (x : Int)
    (b : row) (i : Nat) (rest : List row) (k : Nat) (hk : k < rest.length)
    (hik : i + k < (db.rows t).length)
    (hbefore : ∀ (j : Nat) (hj : j < k), stopsScan mem x (rest[j]) = false)
    (hid : idIs mem x (rest[k]) = true) :
    EditRowById.loop mem db t x b i rest
      = (db.setRows t ((db.rows t).set (i + k) b), .ok b) := by
  induction rest generalizing i k with
  | nil => simp at hk
  | cons r rest ih =>
    unfold EditRowById.loop
    cases k with
    | zero =>
      obtain ⟨v, hv, he⟩ := idIs_true mem x r (by simpa using hid)
      have hidx := index_set_self (db.rows t) i b (by simpa using hik)
      simp [hv, he, setRows_rows, hidx]
    | succ k =>
      obtain ⟨v, hv, he⟩ := stopsScan_false mem x r (by simpa using hbefore 0 (by omega))
      have := ih (i + 1) k (by simpa using hk) (by omega)
        (fun j hj => by simpa using hbefore (j + 1) (by omega)) (by simpa using hid)
      simp only [hv, he, Bool.false_eq_true, if_false, this]
      have e : i + 1 + k = i + (k + 1) := by omega
      rw [e]

/-- C5: when the scan for `x` meets its first row with id `x` at index `k`, no row
without `id` before it, `EditRowById` returns the body, and the table becomes the old
sequence with the element at `k` replaced by exactly the body: same length, the
body at `k`, every other position as it was. -/
theorem EditRowById_replaces_first (mem : Memory) (db : database) (t : table) (x : Int)
    (b : row) (rows : List row) (k : Nat) (ht : db.Tables t = some rows)
    (hk : k < rows.length)
    (hbefore : ∀ (j : Nat) (hj : j < k), stopsScan mem x (rows[j]) = false)
    (hid : idIs mem x (rows[k]) = true) :
    EditRowById mem db t x b = (db.setRows t (rows.set k b), .ok b) ∧
    (EditRowById mem db t x b).1.Tables t = some (rows.set k b) ∧
    (rows.set k b).length = rows.length ∧
    (rows.set k b)[k]? = some b ∧
    (∀ i : Nat, i ≠ k → (rows.set k b)[i]? = rows[i]?) ∧
    rows.set k b = rows.take k ++ b :: rows.drop (k + 1) := by
  have hedit : EditRowById mem db t x b = (db.setRows t (rows.set k b), .ok b) := by
    have := EditRowById_loop_at mem db t x b 0 rows k hk
      (by simpa [rows_of_tables ht] using hk) hbefore hid
    simp only [Nat.zero_add, rows_of_tables ht] at this
    simp [EditRowById, tableExists_of_tables ht, rows_of_tables ht, this]
  refine ⟨hedit, ?_, by simp, by simp [hk], ?_, ?_⟩
  · rw [hedit, setRows_tables]
  · intro i hi
    exact List.getElem?_set_ne (Ne.symm hi)
  · exact List.set_eq_take_append_cons_drop.trans (by simp [hk])

/-- C5 at work: editing id 2 of `{id:1}`, `{id:2,name:"a"}` with the map
`{id:2,name:"b"}` leaves `{id:1}`, `{id:2,name:"b"}`: the slot holds the body, no
column of the old row with it. -/
theorem EditRowById_replaces_first_witness :
    EditRowById (memOf [[("id", .num 1)], [("id", .num 2), ("name", .str "a")],
        [("id", .num 2), ("name", .str "b")]])
        (oneTable "users" [.ref 0, .ref 1]) "users" 2 (.ref 2)
      = ((oneTable "users" [.ref 0, .ref 1]).setRows "users"
          (List.set [.ref 0, .ref 1] 1 (.ref 2)), .ok (.ref 2)) ∧
    List.set [row.ref 0, .ref 1] 1 (.ref 2) = [.ref 0, .ref 2] :=
  ⟨(EditRowById_replaces_first
      (memOf [[("id", .num 1)], [("id", .num 2), ("name", .str "a")],
        [("id", .num 2), ("name", .str "b")]])
      (oneTable "users" [.ref 0, .ref 1]) "users" 2 (.ref 2)
      [.ref 0, .ref 1] 1 rfl (by decide)
      (fun j hj => by
        have hj0 : j = 0 := by omega
        subst hj0
        rfl)
      (by decide)).1, by decide⟩

/-! ## Absent tables -/

/-- C6: for a name that is not a key of the table mapping, `getTable`, `GetRowById`,
`AddRow`, `EditRowById` and `DeleteRowById` fail with `errTableNotFound` and hand back
the store they were given (`AddRow` the memory as well); for a name that is a key,
`getTable` returns the table's whole row sequence. -/
theorem absent_table_not_found (mem : Memory) (db : database) (N : table) :
    (db.Tables N = none →
      getTable db N = (db, .err .errTableNotFound) ∧
      (∀ id, GetRowById mem db N id = (db, .err .errTableNotFound)) ∧
      (∀ body, AddRow mem db N body = (mem, db, .err .errTableNotFound)) ∧
      (∀ id body, EditRowById mem db N id body = (db, .err .errTableNotFound)) ∧
      (∀ id, DeleteRowById mem db N id = (db, .err .errTableNotFound))) ∧
    (∀ rows, db.Tables N = some rows → getTable db N = (db, .ok rows)) := by
  constructor
  · intro h
    refine ⟨?_, ?_, ?_, ?_, ?_⟩
    · simp [getTable, tableExists, h]
    · intro id
      simp [GetRowById, tableExists, h]
    · intro body
      exact AddRow_absent mem db N body h
    · intro id body
      simp [EditRowById, tableExists, h]
    · intro id
      simp [DeleteRowById, tableExists, h]
  · intro rows h
    simp [getTable, tableExists, h, database.rows]

/-- C6 at work: a store whose only table is `users`, asked for `orders`. -/
theorem absent_table_not_found_witness :
    AddRow (memOf [[("id", .num 1)], [("name", .str "a")]]) (oneTable "users" [.ref 0])
        "orders" (.ref 1)
      = (memOf [[("id", .num 1)], [("name", .str "a")]], oneTable "users" [.ref 0],
          .err .errTableNotFound) ∧
    getTable (oneTable "users" [.ref 0]) "users"
      = (oneTable "users" [.ref 0], .ok [.ref 0]) :=
  ⟨((absent_table_not_found (memOf [[("id", .num 1)], [("name", .str "a")]])
      (oneTable "users" [.ref 0]) "orders").1 rfl).2.2.1 _,
   (absent_table_not_found (memOf [[("id", .num 1)], [("name", .str "a")]])
      (oneTable "users" [.ref 0]) "users").2 _ rfl⟩

/-! ## Search -/

theorem anyEq_comparable (val v : Value) (hv : v.comparable = true) :
    anyEq val v = some (decide (val = v)) := by
  cases v <;> cases val <;> simp_all [anyEq, Value.comparable]

theorem searchRecords_loop_ok (mem : Memory) (c : String) (v : Value)
    (hv : v.comparable = true) (acc rest : List row)
    (h : ∀ r ∈ rest, r.get mem c ≠ none) :
    searchRecords.loop mem c v acc rest
      = .returned (acc ++ rest.filter (colIs mem c v)) none := by
  induction rest generalizing acc with
  | nil => simp [searchRecords.loop]
  | cons r rest ih =>
    have hr := h r (List.mem_cons_self _ _)
    have hrest : ∀ q ∈ rest, q.get mem c ≠ none :=
      fun q hq => h q (List.mem_cons_of_mem _ hq)
    unfold searchRecords.loop
    cases hg : r.get mem c with
    | none => exact absurd hg hr
    | some val =>
      by_cases he : val = v
      · have ha : anyEq val v = some true := by
          rw [anyEq_comparable val v hv]; simp [he]
        simp only [ha, ih _ hrest]
        simp [List.filter, colIs, hg, he]
      · have ha : anyEq val v = some false := by
          rw [anyEq_comparable val v hv]; simp [he]
        simp only [ha, ih _ hrest]
        simp [List.filter, colIs, hg, he]

theorem searchRecords_loop_err (mem : Memory) (c : String) (v : Value)
    (hv : v.comparable = true) (acc rest : List row)
    (h : ∃ r ∈ rest, r.get mem c = none) :
    ∃ result, searchRecords.loop mem c v acc rest
      = .returned result (some .errColumnNotFound) := by
  induction rest generalizing acc with
  | nil => simp at h
  | cons r rest ih =>
    unfold searchRecords.loop
    cases hg : r.get mem c with
    | none => exact ⟨acc, rfl⟩
    | some val =>
      have hrest : ∃ q ∈ rest, q.get mem c = none := by
        obtain ⟨q, hq, hqn⟩ := h
        rcases List.mem_cons.1 hq with rfl | hq
        · rw [hg] at hqn; cases hqn
        · exact ⟨q, hq, hqn⟩
      by_cases he : val = v
      · have ha : anyEq val v = some true := by
          rw [anyEq_comparable val v hv]; simp [he]
        simp only [ha]
        exact ih _ hrest
      · have ha : anyEq val v = some false := by
          rw [anyEq_comparable val v hv]; simp [he]
        simp only [ha]
        exact ih _ hrest

/-- C7, amended: for a searched value whose dynamic type is comparable (nil, `bool`,
`float64` or `string`), `searchRecords` fails with `errColumnNotFound` exactly when
some row, at any position, lacks the column; otherwise it returns the nil error
and the rows whose value in the column equals `v` (same dynamic type, same value),
in scan order, each once.  On `{id:1,x:5}`, `{id:2,x:7}`, `{id:3,x:5}` the search for
`x = 5` returns the rows with id 1 and 3. -/
theorem searchRecords_filters (mem : Memory) (rows : List row) (c : String) (v : Value)
    (hv : v.comparable = true) :
    ((∃ result, searchRecords mem rows c v = .returned result (some .errColumnNotFound))
      ↔ ∃ r ∈ rows, r.get mem c = none) ∧
    ((∀ r ∈ rows, r.get mem c ≠ none) →
      searchRecords mem rows c v = .returned (rows.filter (colIs mem c v)) none) ∧
    (∀ val : Value, anyEq val v = some true ↔ val = v) ∧
    (∀ (r : row) (val : Value), r.get mem c = some val →
      (colIs mem c v r = true ↔ val = v)) ∧
    searchRecords (memOf [[("id", .num 1), ("x", .num 5)], [("id", .num 2), ("x", .num 7)],
        [("id", .num 3), ("x", .num 5)]]) [.ref 0, .ref 1, .ref 2] "x" (.num 5)
      = .returned [.ref 0, .ref 2] none := by
  refine ⟨?_, ?_, ?_, ?_, by decide⟩
  · constructor
    · rintro ⟨result, herr⟩
      by_contra hno
      have hall : ∀ r ∈ rows, r.get mem c ≠ none := by
        intro r hr hn
        exact hno ⟨r, hr, hn⟩
      rw [searchRecords, searchRecords_loop_ok mem c v hv [] rows hall] at herr
      cases herr
    · intro h
      exact searchRecords_loop_err mem c v hv [] rows h
  · intro hall
    rw [searchRecords, searchRecords_loop_ok mem c v hv [] rows hall]
    simp
  · intro val
    simp [anyEq_comparable val v hv]
  · intro r val hg
    simp [colIs, hg]

/-- C7 at work: every row carries `x`, and the search for `x = 7` keeps one row. -/
theorem searchRecords_filters_witness :
    searchRecords (memOf [[("id", .num 1), ("x", .num 5)], [("id", .num 2), ("x", .num 7)]])
        [.ref 0, .ref 1] "x" (.num 7)
      = .returned (List.filter
          (colIs (memOf [[("id", .num 1), ("x", .num 5)], [("id", .num 2), ("x", .num 7)]])
            "x" (.num 7)) [.ref 0, .ref 1]) none :=
  (searchRecords_filters
    (memOf [[("id", .num 1), ("x", .num 5)], [("id", .num 2), ("x", .num 7)]])
    [.ref 0, .ref 1] "x" (.num 7) rfl).2.1 (by decide)

/-- C7 fails as stated: `searchRecords[any]` for an empty slice, on one row that
carries the column and holds an empty slice there, neither fails with
`errColumnNotFound` nor returns rows: the comparison of two slices panics. -/
theorem searchRecords_panics_on_slices :
    (∀ r ∈ [row.ref 0], r.get (memOf [[("id", .num 1), ("x", .arr .nil)]]) "x" ≠ none) ∧
    searchRecords (memOf [[("id", .num 1), ("x", .arr .nil)]]) [.ref 0] "x" (.arr .nil)
      = .panic .uncomparable := by
  decide

/-! ## Sort -/

section Sorting
variable {T : Type} [LinearOrder T]

end Sorting

/-- C9 fails on the code: `AddRow` on an existing empty table panics on the index
`l-2 = -1`, and on a table whose last row has no `id`, or an `id` that is not a
number, it panics on the type assertion; in each case the body has already been
appended.  A nil body, on a table that is in order, is appended too, and then the
write of its id panics. -/
theorem AddRow_panics :
    AddRow (memOf [[("name", .str "a")]]) (oneTable "users" []) "users" (.ref 0)
      = (memOf [[("name", .str "a")]], (oneTable "users" []).setRows "users" [.ref 0],
          .panic .indexOutOfRange) ∧
    AddRow (memOf [[("name", .str "x")], [("name", .str "a")]]) (oneTable "users" [.ref 0])
        "users" (.ref 1)
      = (memOf [[("name", .str "x")], [("name", .str "a")]],
          (oneTable "users" [.ref 0]).setRows "users" [.ref 0, .ref 1],
          .panic .interfaceConversion) ∧
    AddRow (memOf [[("id", .str "7")], [("name", .str "a")]]) (oneTable "users" [.ref 0])
        "users" (.ref 1)
      = (memOf [[("id", .str "7")], [("name", .str "a")]],
          (oneTable "users" [.ref 0]).setRows "users" [.ref 0, .ref 1],
          .panic .interfaceConversion) ∧
    AddRow (memOf [[("id", .num 1)]]) (oneTable "users" [.ref 0]) "users" .nil
      = (memOf [[("id", .num 1)]], (oneTable "users" [.ref 0]).setRows "users" [.ref 0, .nil],
          .panic .nilMapWrite) :=
  ⟨AddRow_empty _ _ _ _ rfl, AddRow_bad_last _ _ _ _ [] _ rfl rfl,
    AddRow_bad_last _ _ _ _ [] _ rfl rfl, AddRow_nil_body _ _ _ [] _ 1 rfl rfl⟩

/-- C10 fails on the code: `quickSort[float64]` on two rows of which one lacks the
column, or holds a string there, ends in the panic of the unchecked type assertion;
it has no error result to report. -/
theorem quickSort_panics :
    quickSort asFloat64 (memOf [[("id", .num 1), ("x", .num 3)], [("id", .num 2)]])
        [.ref 0, .ref 1] "x" false
      = .panic .interfaceConversion ∧
    quickSort asFloat64 (memOf [[("id", .num 1), ("x", .str "a")],
        [("id", .num 2), ("x", .num 1)]]) [.ref 0, .ref 1] "x" true
      = .panic .interfaceConversion := by
  decide

/-! ## Loading -/

theorem splitDot_go_ne_nil (cur cs : List Char) : splitDot.go cur cs ≠ [] := by
  induction cs generalizing cur with
  | nil => simp [splitDot.go]
  | cons c cs ih =>
    unfold splitDot.go
    by_cases hc : c = '.'
    · simp [hc]
    · simpa [hc] using ih (c :: cur)

theorem splitDot_go_no_dot (cur cs : List Char) (h : '.' ∉ cs) :
    splitDot.go cur cs = [cur.reverse ++ cs] := by
  induction cs generalizing cur with
  | nil => simp [splitDot.go]
  | cons c cs ih =>
    have hc : c ≠ '.' := fun e => h (by simp [e])
    have hcs : '.' ∉ cs := fun e => h (List.mem_cons_of_mem _ e)
    unfold splitDot.go
    simp [hc, ih (c :: cur) hcs]

theorem splitDot_go_cons (cur : List Char) (c : Char) (cs : List Char) :
    splitDot.go cur (c :: cs)
      = if c = '.' then cur.reverse :: splitDot.go [] cs else splitDot.go (c :: cur) cs := by
  simp [splitDot.go]

/-- The last segment is what follows the last dot. -/
theorem splitDot_go_after_dot (cur front back : List Char) :
    (splitDot.go cur (front ++ '.' :: back)).getLast? = (splitDot.go [] back).getLast? := by
  induction front generalizing cur with
  | nil =>
    simp only [List.nil_append, splitDot_go_cons, if_true]
    cases hgo : splitDot.go [] back with
    | nil => exact absurd hgo (splitDot_go_ne_nil _ _)
    | cons a l => simp [List.getLast?_cons_cons]
  | cons c front ih =>
    simp only [List.cons_append]
    rw [splitDot_go_cons]
    by_cases hc : c = '.'
    · simp only [hc, if_true]
      cases hgo : splitDot.go [] (front ++ '.' :: back) with
      | nil => exact absurd hgo (splitDot_go_ne_nil _ _)
      | cons a l =>
        rw [List.getLast?_cons_cons, ← hgo]
        exact ih []
    · simp only [hc, if_false]
      exact ih (c :: cur)

theorem last_dot_split (cs : List Char) :
    '.' ∉ cs ∨ ∃ front back, cs = front ++ '.' :: back ∧ '.' ∉ back := by
  induction cs with
  | nil => left; simp
  | cons c cs ih =>
    rcases ih with h | ⟨front, back, rfl, hb⟩
    · by_cases hc : c = '.'
      · right
        exact ⟨[], cs, by simp [hc], h⟩
      · left
        intro hm
        rcases List.mem_cons.1 hm with e | e
        · exact hc e.symm
        · exact h e
    · right
      exact ⟨c :: front, back, by simp, hb⟩

/-- The extension check of `loadDB` passes exactly on the path `json` and on the
paths that end in `.json`. -/
theorem last_segment_json (cs : List Char) :
    (splitDot cs).getLast? = some "json".data ↔
      cs = "json".data ∨ ∃ front, cs = front ++ ".json".data := by
  constructor
  · intro h
    rcases last_dot_split cs with hno | ⟨front, back, rfl, hb⟩
    · left
      rw [splitDot, splitDot_go_no_dot [] cs hno] at h
      simpa using h
    · right
      rw [splitDot, splitDot_go_after_dot, splitDot_go_no_dot [] back hb] at h
      have hback : back = "json".data := by simpa using h
      exact ⟨front, by rw [hback]⟩
  · rintro (rfl | ⟨front, rfl⟩)
    · decide
    · have e : front ++ ".json".data = front ++ '.' :: "json".data := rfl
      rw [e, splitDot, splitDot_go_after_dot]
      decide
theorem loadDB_of_last_segment {File : Type} (osOpen : String → Except String File)
    (jsonDecode : File → Except String (Memory × (table → Option (List row)))) (path : String) :
    loadDB osOpen jsonDecode path =
      if (splitDot path.data).getLast? = some "json".data
      then loadDB.readAndDecode osOpen jsonDecode path
      else .err .errNotAJsonFile := by
  unfold loadDB
  cases hl : (splitDot path.data).getLast? with
  | none => exact absurd (List.getLast?_eq_none_iff.1 hl) (splitDot_go_ne_nil _ _)
  | some ext =>
    by_cases he : ext = "json".data
    · simp [he]
    · simp [he]

theorem short_path_not_dot_json (path : String) (h : path.data.length < 5) :
    ¬ endsInDotJson path := by
  rintro ⟨front, hf⟩
  have hlen := congrArg List.length hf
  have h5 : (".json".data).length = 5 := by decide
  rw [List.length_append, h5] at hlen
  omega

/-- C11, amended: a path that neither ends in `.json` nor is the path `json` makes
`loadDB` fail with `errNotAJsonFile`, whatever the file system and the decoder are
(neither is consulted); on a path that ends in `.json`, and on the path `json`, the
check passes and `loadDB` goes on to open the file. -/
theorem loadDB_extension_check {File : Type} (osOpen : String → Except String File)
    (jsonDecode : File → Except String (Memory × (table → Option (List row)))) (path : String) :
    ((¬ endsInDotJson path ∧ path ≠ "json") →
      loadDB osOpen jsonDecode path = .err .errNotAJsonFile) ∧
    ((endsInDotJson path ∨ path = "json") →
      loadDB osOpen jsonDecode path = loadDB.readAndDecode osOpen jsonDecode path) := by
  have hpath : path = "json" ↔ path.data = "json".data :=
    ⟨fun h => by rw [h], fun h => String.ext h⟩
  constructor
  · rintro ⟨hends, hne⟩
    rw [loadDB_of_last_segment, if_neg]
    rw [last_segment_json]
    rintro (h | h)
    · exact hne (hpath.2 h)
    · exact hends h
  · intro h
    rw [loadDB_of_last_segment, if_pos]
    rw [last_segment_json]
    rcases h with h | h
    · exact Or.inr h
    · exact Or.inl (hpath.1 h)

/-- C11 at work: `data` is refused before the file system is asked, `db.json` is
opened. -/
theorem loadDB_extension_check_witness :
    loadDB (fun _ => Except.error "no such file")
        (fun (_ : Unit) => Except.ok (memOf [], fun _ => none)) "data" = .err .errNotAJsonFile ∧
    loadDB (fun _ => Except.error "no such file")
        (fun (_ : Unit) => Except.ok (memOf [], fun _ => none)) "db.json"
      = loadDB.readAndDecode (fun _ => Except.error "no such file")
        (fun (_ : Unit) => Except.ok (memOf [], fun _ => none)) "db.json" :=
  ⟨(loadDB_extension_check _ _ "data").1
      ⟨short_path_not_dot_json "data" (by decide), by decide⟩,
   (loadDB_extension_check _ _ "db.json").2 (Or.inl ⟨"db".data, rfl⟩)⟩

/-- C11 fails as stated: the path `json` has no dot and does not end in `.json`, yet
`strings.Split` gives the single segment `json`, the check passes, and `loadDB` goes
on to `os.Open`. -/
theorem loadDB_accepts_json_without_dot :
    ¬ endsInDotJson "json" ∧
    loadDB (fun _ => Except.error "no such file")
        (fun (_ : Unit) => Except.ok (memOf [], fun _ => none)) "json"
      = .couldNotRead "no such file" :=
  ⟨short_path_not_dot_json "json" (by decide), rfl⟩

/-! ## The three scans agree -/

theorem find_first_index {α : Type} (p : α → Bool) (l : List α) (r : α)
    (h : l.find? p = some r) :
    ∃ (k : Nat) (hk : k < l.length), l[k] = r ∧ p r = true ∧
      ∀ (j : Nat) (hj : j < k), p (l[j]) = false := by
  induction l with
  | nil => simp at h
  | cons a as ih =>
    by_cases ha : p a = true
    · rw [List.find?_cons_of_pos _ ha] at h
      cases h
      exact ⟨0, by simp, rfl, ha, fun j hj => absurd hj (Nat.not_lt_zero j)⟩
    · rw [List.find?_cons_of_neg _ ha] at h
      obtain ⟨k, hk, hr, hp, hbefore⟩ := ih h
      refine ⟨k + 1, by simpa using hk, by simpa using hr, hp, ?_⟩
      intro j hj
      cases j with
      | zero => simpa using ha
      | succ j => simpa using hbefore j (by omega)

theorem DeleteRowById_loop_none (mem : Memory) (db : database) (t : table) (x : Int) (i : Nat)
    (rest : List row) (h : ∀ r ∈ rest, stopsScan mem x r = false) :
    DeleteRowById.loop mem db t x i rest = (db, .err .errRecordNotFound) := by
  induction rest generalizing i with
  | nil => rfl
  | cons r rest ih =>
    obtain ⟨v, hv, he⟩ := stopsScan_false mem x r (h r (List.mem_cons_self _ _))
    unfold DeleteRowById.loop
    simp only [hv, he, Bool.false_eq_true, if_false]
    exact ih (i + 1) (fun q hq => h q (List.mem_cons_of_mem _ hq))

theorem DeleteRowById_loop_lacks (mem : Memory) (db : database) (t : table) (x : Int) (i : Nat)
    (rest : List row) (k : Nat) (hk : k < rest.length)
    (hbefore : ∀ (j : Nat) (hj : j < k), stopsScan mem x (rest[j]) = false)
    (hl : lacksId mem (rest[k]) = true) :
    DeleteRowById.loop mem db t x i rest = (db, .err .errColumnNotFound) := by
  induction rest generalizing i k with
  | nil => simp at hk
  | cons r rest ih =>
    unfold DeleteRowById.loop
    cases k with
    | zero =>
      have hg : r.get mem "id" = none := by simpa [lacksId] using hl
      simp [hg]
    | succ k =>
      obtain ⟨v, hv, he⟩ := stopsScan_false mem x r (by simpa using hbefore 0 (by omega))
      simp only [hv, he, Bool.false_eq_true, if_false]
      exact ih (i + 1) k (by simpa using hk)
        (fun j hj => by simpa using hbefore (j + 1) (by omega)) (by simpa using hl)

theorem EditRowById_loop_none (mem : Memory) (db : database) (t : table) (x : Int)
    (b : row) (i : Nat)
    (rest : List row) (h : ∀ r ∈ rest, stopsScan mem x r = false) :
    EditRowById.loop mem db t x b i rest = (db, .err .errRecordNotFound) := by
  induction rest generalizing i with
  | nil => rfl
  | cons r rest ih =>
    obtain ⟨v, hv, he⟩ := stopsScan_false mem x r (h r (List.mem_cons_self _ _))
    unfold EditRowById.loop
    simp only [hv, he, Bool.false_eq_true, if_false]
    exact ih (i + 1) (fun q hq => h q (List.mem_cons_of_mem _ hq))

theorem EditRowById_loop_lacks (mem : Memory) (db : database) (t : table) (x : Int)
    (b : row) (i : Nat)
    (rest : List row) (k : Nat) (hk : k < rest.length)
    (hbefore : ∀ (j : Nat) (hj : j < k), stopsScan mem x (rest[j]) = false)
    (hl : lacksId mem (rest[k]) = true) :
    EditRowById.loop mem db t x b i rest = (db, .err .errColumnNotFound) := by
  induction rest generalizing i k with
  | nil => simp at hk
  | cons r rest ih =>
    unfold EditRowById.loop
    cases k with
    | zero =>
      have hg : r.get mem "id" = none := by simpa [lacksId] using hl
      simp [hg]
    | succ k =>
      obtain ⟨v, hv, he⟩ := stopsScan_false mem x r (by simpa using hbefore 0 (by omega))
      simp only [hv, he, Bool.false_eq_true, if_false]
      exact ih (i + 1) k (by simpa using hk)
        (fun j hj => by simpa using hbefore (j + 1) (by omega)) (by simpa using hl)

/-- What the three scans do on one store, by the way the scan for `x` ends. -/
theorem scans_by_cases (mem : Memory) (db : database) (t : table) (x : Int) (b : row) :
    (GetRowById mem db t x = (db, .err .errTableNotFound) ∧
      EditRowById mem db t x b = (db, .err .errTableNotFound) ∧
      DeleteRowById mem db t x = (db, .err .errTableNotFound) ∧ db.Tables t = none) ∨
    (GetRowById mem db t x = (db, .err .errRecordNotFound) ∧
      EditRowById mem db t x b = (db, .err .errRecordNotFound) ∧
      DeleteRowById mem db t x = (db, .err .errRecordNotFound) ∧
      ∃ rows, db.Tables t = some rows ∧ ∀ r ∈ rows, stopsScan mem x r = false) ∨
    (GetRowById mem db t x = (db, .err .errColumnNotFound) ∧
      EditRowById mem db t x b = (db, .err .errColumnNotFound) ∧
      DeleteRowById mem db t x = (db, .err .errColumnNotFound) ∧
      ∃ rows, ∃ (k : Nat) (hk : k < rows.length), db.Tables t = some rows ∧
        lacksId mem (rows[k]) = true ∧
        ∀ (j : Nat) (hj : j < k), stopsScan mem x (rows[j]) = false) ∨
    (∃ rows, ∃ (k : Nat) (hk : k < rows.length), db.Tables t = some rows ∧
      idIs mem x (rows[k]) = true ∧
      (∀ (j : Nat) (hj : j < k), stopsScan mem x (rows[j]) = false) ∧
      GetRowById mem db t x = (db, .ok (rows[k])) ∧
      EditRowById mem db t x b = (db.setRows t (rows.set k b), .ok b) ∧
      DeleteRowById mem db t x = (db.setRows t (rows.eraseIdx k), .ok ())) := by
  cases ht : db.Tables t with
  | none =>
    left
    simp [GetRowById, EditRowById, DeleteRowById, tableExists, ht]
  | some rows =>
    right
    have hex := tableExists_of_tables ht
    have hrows := rows_of_tables ht
    cases hf : rows.find? (stopsScan mem x) with
    | none =>
      left
      have hall : ∀ r ∈ rows, stopsScan mem x r = false := by
        intro r hr
        have := List.find?_eq_none.1 hf r hr
        simpa using this
      refine ⟨?_, ?_, ?_, rows, rfl, hall⟩
      · rw [GetRowById_eq mem db t x rows ht, hf]
      · simp [EditRowById, hex, hrows, EditRowById_loop_none mem db t x b 0 rows hall]
      · simp [DeleteRowById, hex, hrows, DeleteRowById_loop_none mem db t x 0 rows hall]
    | some r =>
      right
      obtain ⟨k, hk, hr, hp, hbefore⟩ := find_first_index _ rows r hf
      by_cases hl : lacksId mem r = true
      · left
        refine ⟨?_, ?_, ?_, rows, k, hk, rfl, by rw [hr]; exact hl, hbefore⟩
        · rw [GetRowById_eq mem db t x rows ht, hf]
          simp [hl]
        · simp [EditRowById, hex, hrows,
            EditRowById_loop_lacks mem db t x b 0 rows k hk hbefore (by rw [hr]; exact hl)]
        · simp [DeleteRowById, hex, hrows,
            DeleteRowById_loop_lacks mem db t x 0 rows k hk hbefore (by rw [hr]; exact hl)]
      · right
        have hid : idIs mem x (rows[k]) = true := by
          rw [hr]
          simp only [stopsScan, Bool.or_eq_true] at hp
          rcases hp with h | h
          · exact absurd h hl
          · exact h
        refine ⟨rows, k, hk, rfl, hid, hbefore, ?_, ?_, ?_⟩
        · rw [GetRowById_eq mem db t x rows ht, hf, hr]
          simp [hl]
        · have := EditRowById_loop_at mem db t x b 0 rows k hk
            (by simpa [hrows] using hk) hbefore hid
          simp only [Nat.zero_add, hrows] at this
          simp [EditRowById, hex, hrows, this]
        · have := DeleteRowById_loop_at mem db t x 0 rows k hk hbefore hid
          simp only [Nat.zero_add, hrows] at this
          simp [DeleteRowById, hex, hrows, this, List.eraseIdx_eq_take_drop_succ]

/-- C14: on one store state, `EditRowById` and `DeleteRowById` fail exactly when
`GetRowById` fails, with the same error (`errTableNotFound`, `errColumnNotFound`,
`errRecordNotFound`), and succeed exactly when it succeeds; the row they then
replace or remove is the one, at its index `k`, that `GetRowById` returns. -/
theorem edit_delete_follow_get (mem : Memory) (db : database) (t : table) (x : Int)
    (b : row) :
    (∀ e, (GetRowById mem db t x).2 = .err e ↔ (EditRowById mem db t x b).2 = .err e) ∧
    (∀ e, (GetRowById mem db t x).2 = .err e ↔ (DeleteRowById mem db t x).2 = .err e) ∧
    ((∃ r, (GetRowById mem db t x).2 = .ok r) ↔ ∃ r, (EditRowById mem db t x b).2 = .ok r) ∧
    ((∃ r, (GetRowById mem db t x).2 = .ok r) ↔ (DeleteRowById mem db t x).2 = .ok ()) ∧
    (∀ r, (GetRowById mem db t x).2 = .ok r →
      ∃ rows k, db.Tables t = some rows ∧ rows[k]? = some r ∧
        (∀ (j : Nat), j < k → ∀ q, rows[j]? = some q → stopsScan mem x q = false) ∧
        (EditRowById mem db t x b).1 = db.setRows t (rows.set k b) ∧
        (DeleteRowById mem db t x).1 = db.setRows t (rows.eraseIdx k)) := by
  rcases scans_by_cases mem db t x b with ⟨hg, he, hd, _⟩ | ⟨hg, he, hd, _⟩ | ⟨hg, he, hd, _⟩ |
    ⟨rows, k, hk, ht, hid, hbefore, hg, he, hd⟩
  · simp [hg, he, hd]
  · simp [hg, he, hd]
  · simp [hg, he, hd]
  · refine ⟨by simp [hg, he], by simp [hg, hd], by simp [hg, he], by simp [hg, hd], ?_⟩
    intro r hr
    rw [hg] at hr
    simp only [Outcome.ok.injEq] at hr
    refine ⟨rows, k, ht, by simp [hk, hr], ?_, by rw [he], by rw [hd]⟩
    intro j hj q hq
    have hjl : j < rows.length := by omega
    have : rows[j] = q := by
      rw [List.getElem?_eq_getElem hjl] at hq
      exact Option.some.inj hq
    rw [← this]
    exact hbefore j hj

/-- C14 at work: in `{id:1}`, `{id:2,name:"a"}` the three calls for id 2 all act on
index 1. -/
theorem edit_delete_follow_get_witness :
    ∃ rows k,
      (oneTable "users" [.ref 0, .ref 1]).Tables "users" = some rows ∧
      rows[k]? = some (.ref 1) ∧
      (∀ (j : Nat), j < k → ∀ q, rows[j]? = some q →
        stopsScan (memOf [[("id", .num 1)], [("id", .num 2), ("name", .str "a")],
          [("id", .num 2)]]) 2 q = false) ∧
      (EditRowById (memOf [[("id", .num 1)], [("id", .num 2), ("name", .str "a")],
          [("id", .num 2)]]) (oneTable "users" [.ref 0, .ref 1]) "users" 2 (.ref 2)).1
        = (oneTable "users" [.ref 0, .ref 1]).setRows "users" (rows.set k (.ref 2)) ∧
      (DeleteRowById (memOf [[("id", .num 1)], [("id", .num 2), ("name", .str "a")],
          [("id", .num 2)]]) (oneTable "users" [.ref 0, .ref 1]) "users" 2).1
        = (oneTable "users" [.ref 0, .ref 1]).setRows "users" (rows.eraseIdx k) :=
  (edit_delete_follow_get
    (memOf [[("id", .num 1)], [("id", .num 2), ("name", .str "a")], [("id", .num 2)]])
    (oneTable "users" [.ref 0, .ref 1]) "users" 2 (.ref 2)).2.2.2.2 (.ref 1) (by decide)

/-! ## What a call leaves untouched -/

theorem sameOutside_refl (t : table) (db : database) : sameOutside t db db :=
  ⟨fun _ => rfl, fun _ _ => rfl⟩

theorem sameOutside_setRows (t : table) (db : database) (rows : List row)
    (h : tableExists db t = true) : sameOutside t db (db.setRows t rows) := by
  constructor
  · intro n
    by_cases hn : n = t
    · subst hn
      simpa [database.setRows, tableExists] using h.symm
    · simp [database.setRows, hn]
  · intro n hn
    simp [database.setRows, hn]

/-- The store `AddRow` leaves is the one it got, or that one with table `t`, a key
already, overwritten. -/
theorem AddRow_db_cases (mem : Memory) (db : database) (t : table) (b : row) :
    (AddRow mem db t b).2.1 = db ∨
      (tableExists db t = true ∧ ∃ rows, (AddRow mem db t b).2.1 = db.setRows t rows) := by
  cases ht : db.Tables t with
  | none => left; rw [AddRow_absent mem db t b ht]
  | some rows =>
    right
    refine ⟨tableExists_of_tables ht, ?_⟩
    rcases List.eq_nil_or_concat rows with rfl | ⟨init, last, rfl⟩
    · exact ⟨_, by rw [AddRow_empty mem db t b ht]⟩
    · rw [List.concat_eq_append] at ht
      cases hid : assertFloat64 (last.get mem "id") with
      | none => exact ⟨_, by rw [AddRow_bad_last mem db t b init last ht hid]⟩
      | some n =>
        have hid2 := (assertFloat64_eq_some _ _).1 hid
        cases b with
        | nil => exact ⟨_, by rw [AddRow_nil_body mem db t init last n ht hid2]⟩
        | ref a => exact ⟨_, by rw [AddRow_eq mem db t a init last n ht hid2]⟩

/-- The memory `AddRow` leaves differs from the one it got at most in the map that
is the body. -/
theorem AddRow_mem_cases (mem : Memory) (db : database) (t : table) (b : row) :
    (AddRow mem db t b).1 = mem ∨
      ∃ a, b = .ref a ∧ ∀ c, c ≠ a → (AddRow mem db t b).1 c = mem c := by
  cases ht : db.Tables t with
  | none => left; rw [AddRow_absent mem db t b ht]
  | some rows =>
    rcases List.eq_nil_or_concat rows with rfl | ⟨init, last, rfl⟩
    · left; rw [AddRow_empty mem db t b ht]
    · rw [List.concat_eq_append] at ht
      cases hid : assertFloat64 (last.get mem "id") with
      | none => left; rw [AddRow_bad_last mem db t b init last ht hid]
      | some n =>
        have hid2 := (assertFloat64_eq_some _ _).1 hid
        cases b with
        | nil => left; rw [AddRow_nil_body mem db t init last n ht hid2]
        | ref a =>
          right
          refine ⟨a, rfl, ?_⟩
          intro c hc
          rw [AddRow_eq mem db t a init last n ht hid2]
          simp [hc]

/-- C12, amended: whether they succeed or fail, `AddRow`, `EditRowById` and
`DeleteRowById` on table `t` leave the set of table names as it was and every other
table holding the same maps in the same order; `EditRowById` and `DeleteRowById`
write into no map (they return no memory), and `AddRow` writes into no map but the
body, so every row that is not the body map keeps its contents; `getTable` and
`GetRowById` leave the whole store as it was. -/
theorem calls_keep_other_tables (mem : Memory) (db : database) (t : table) (id : Int)
    (body : row) :
    sameOutside t db (AddRow mem db t body).2.1 ∧
    (∀ r : row, r ≠ body → r.fields (AddRow mem db t body).1 = r.fields mem) ∧
    sameOutside t db (EditRowById mem db t id body).1 ∧
    sameOutside t db (DeleteRowById mem db t id).1 ∧
    (getTable db t).1 = db ∧
    (GetRowById mem db t id).1 = db := by
  refine ⟨?_, ?_, ?_, ?_, ?_, GetRowById_fst mem db t id⟩
  · rcases AddRow_db_cases mem db t body with h | ⟨hex, rows, h⟩
    · rw [h]; exact sameOutside_refl t db
    · rw [h]; exact sameOutside_setRows t db rows hex
  · intro r hr
    rcases AddRow_mem_cases mem db t body with h | ⟨a, hb, h⟩
    · rw [h]
    · exact fields_of_other mem _ a r h (fun e => hr (e.trans hb.symm))
  · rcases scans_by_cases mem db t id body with ⟨_, he, _, _⟩ | ⟨_, he, _, _⟩ |
      ⟨_, he, _, _⟩ | ⟨rows, k, hk, ht, _, _, _, he, _⟩
    · rw [he]; exact sameOutside_refl t db
    · rw [he]; exact sameOutside_refl t db
    · rw [he]; exact sameOutside_refl t db
    · rw [he]; exact sameOutside_setRows t db _ (tableExists_of_tables ht)
  · rcases scans_by_cases mem db t id body with ⟨_, _, hd, _⟩ | ⟨_, _, hd, _⟩ |
      ⟨_, _, hd, _⟩ | ⟨rows, k, hk, ht, _, _, _, _, hd⟩
    · rw [hd]; exact sameOutside_refl t db
    · rw [hd]; exact sameOutside_refl t db
    · rw [hd]; exact sameOutside_refl t db
    · rw [hd]; exact sameOutside_setRows t db _ (tableExists_of_tables ht)
  · unfold getTable
    split <;> rfl

/-- C12 at work: `AddRow` into `orders` with a map of its own leaves the row of
`users` with its contents. -/
theorem calls_keep_other_tables_witness :
    (row.ref 0).fields (AddRow (memOf [[("id", .num 1)], [("id", .num 7)], []])
        (twoTables "users" [.ref 0] "orders" [.ref 1]) "orders" (.ref 2)).1
      = (row.ref 0).fields (memOf [[("id", .num 1)], [("id", .num 7)], []]) :=
  (calls_keep_other_tables (memOf [[("id", .num 1)], [("id", .num 7)], []])
    (twoTables "users" [.ref 0] "orders" [.ref 1]) "orders" 0 (.ref 2)).2.1 (.ref 0)
    (by decide)

/-- C12 fails as stated: `GetRowById` hands out the store's own map, and `AddRow` into
`orders` with the map that is the row of `users` writes the new id 8 through it: the
row sequence of `users`, a table other than `orders`, changes from `{id:1}` to
`{id:8}`. -/
theorem AddRow_changes_row_of_other_table :
    (GetRowById (memOf [[("id", .num 1)], [("id", .num 7)]])
        (twoTables "users" [.ref 0] "orders" [.ref 1]) "users" 1).2 = .ok (.ref 0) ∧
    (AddRow (memOf [[("id", .num 1)], [("id", .num 7)]])
        (twoTables "users" [.ref 0] "orders" [.ref 1]) "orders" (.ref 0)).2.2
      = .ok (.ref 0) ∧
    (AddRow (memOf [[("id", .num 1)], [("id", .num 7)]])
        (twoTables "users" [.ref 0] "orders" [.ref 1]) "orders" (.ref 0)).2.1.Tables "users"
      = some [.ref 0] ∧
    (row.ref 0).fields (memOf [[("id", .num 1)], [("id", .num 7)]]) = [("id", .num 1)] ∧
    (row.ref 0).fields (AddRow (memOf [[("id", .num 1)], [("id", .num 7)]])
        (twoTables "users" [.ref 0] "orders" [.ref 1]) "orders" (.ref 0)).1
      = [("id", .num 8)] := by
  decide

/-! ## Increasing ids -/

theorem increasingIds_of_map (mem mem1 : Memory) (rows rows1 : List row)
    (h : rows1.map (numericId mem1) = rows.map (numericId mem))
    (hinc : increasingIds mem rows) : increasingIds mem1 rows1 := by
  have hopt : ∀ (m : Memory) (l : List row),
      increasingIds m l ↔ (∀ o ∈ l.map (numericId m), Option.isSome o = true) ∧
        (l.map (numericId m)).Pairwise (fun p q =>
          (match p, q with
            | some x, some y => decide (x < y)
            | _, _ => false) = true) := by
    intro m l
    unfold increasingIds
    rw [List.pairwise_map]
    constructor
    · rintro ⟨h1, h2⟩
      exact ⟨by simpa using h1, h2⟩
    · rintro ⟨h1, h2⟩
      exact ⟨by simpa using h1, h2⟩
  rw [hopt] at hinc ⊢
  rw [h]
  exact hinc

theorem numericId_of_idIs (mem : Memory) (x : Int) (r : row) (h : idIs mem x r = true) :
    numericId mem r = some x := by
  obtain ⟨v, hv, he⟩ := idIs_true mem x r h
  cases v <;> simp_all [anyEqFloat64, numericId, assertFloat64, asFloat64]

theorem increasingIds_concat (mem : Memory) (rows : List row) (last b : row) (n : Int)
    (hlast : rows.getLast? = some last) (hn : numericId mem last = some n)
    (hnew : numericId mem b = some (n + 1))
    (hinc : increasingIds mem rows) : increasingIds mem (rows ++ [b]) := by
  obtain ⟨init, rfl⟩ := List.getLast?_eq_some_iff.1 hlast
  obtain ⟨hsome, hpw⟩ := hinc
  constructor
  · intro r hr
    rcases List.mem_append.1 hr with hr | hr
    · exact hsome r hr
    · simp only [List.mem_singleton] at hr
      rw [hr, hnew]; rfl
  · rw [List.pairwise_append]
    refine ⟨hpw, by simp, ?_⟩
    intro a ha c hc
    simp only [List.mem_singleton] at hc
    subst hc
    have hlt : idLt mem last c = true := by
      simp [idLt, hn, hnew]
    rcases List.mem_append.1 ha with ha | ha
    · have hal : idLt mem a last = true :=
        (List.pairwise_append.1 hpw).2.2 a ha last (List.mem_singleton_self _)
      unfold idLt at hal ⊢
      rw [hn] at hal
      rw [hnew]
      cases hna : numericId mem a with
      | none => simp [hna] at hal
      | some m =>
        simp only [hna, decide_eq_true_eq] at hal ⊢
        omega
    · simp only [List.mem_singleton] at ha
      rw [ha]; exact hlt

/-- C15, amended: on a table whose rows all carry a numeric `id`, strictly
increasing along the sequence, the same holds of the table after a successful
`AddRow` with a map that is not already a row of the table, when the last id plus
one is below `2^53` in magnitude; after a successful `DeleteRowById`; and after a
successful `EditRowById` whose body carries the id it is called with. -/
theorem increasingIds_preserved (mem : Memory) (db : database) (t : table)
    (rows : List row) (ht : db.Tables t = some rows) (hinc : increasingIds mem rows) :
    (∀ b r, b ∉ rows →
      (∀ last n, rows.getLast? = some last → numericId mem last = some n →
        (n + 1).natAbs < 2 ^ 53) →
      (AddRow mem db t b).2.2 = .ok r →
      ∃ rows1, (AddRow mem db t b).2.1.Tables t = some rows1 ∧
        increasingIds (AddRow mem db t b).1 rows1) ∧
    (∀ x, (DeleteRowById mem db t x).2 = .ok () →
      ∃ rows1, (DeleteRowById mem db t x).1.Tables t = some rows1 ∧
        increasingIds mem rows1) ∧
    (∀ x b r, b.get mem "id" = some (.num x) → (EditRowById mem db t x b).2 = .ok r →
      ∃ rows1, (EditRowById mem db t x b).1.Tables t = some rows1 ∧
        increasingIds mem rows1) := by
  refine ⟨?_, ?_, ?_⟩
  · intro b r hfresh hsmall hok
    obtain ⟨init, last, n, a, ht2, hid, hb⟩ := AddRow_ok_inv mem db t b r hok
    subst hb
    have hrows : rows = init ++ [last] := by
      rw [ht] at ht2
      exact Option.some.inj ht2
    have hlast : rows.getLast? = some last := by simp [hrows]
    have hnlast : numericId mem last = some n := by
      simp [numericId, hid, assertFloat64, asFloat64]
    obtain ⟨hwa, hwo, hdb, _⟩ := AddRow_state mem db t a rows last n ht hlast hid
    rw [float64Add_small n (hsmall last n hlast hnlast)] at hwa
    refine ⟨rows ++ [.ref a], by rw [hdb, setRows_tables], ?_⟩
    have hsame : ∀ q ∈ rows, q.fields (AddRow mem db t (.ref a)).1 = q.fields mem :=
      fun q hq => fields_of_other mem _ a q hwo (fun e => hfresh (e ▸ hq))
    have hold : increasingIds (AddRow mem db t (.ref a)).1 rows := by
      refine increasingIds_of_map mem _ rows rows ?_ hinc
      refine List.map_congr_left ?_
      intro q hq
      exact numericId_of_same_fields _ _ q (hsame q hq)
    refine increasingIds_concat _ rows last (.ref a) n hlast ?_
      (numericId_of_fields _ _ _ _ hwa) hold
    rw [numericId_of_same_fields _ _ last (hsame last (List.mem_of_getLast?_eq_some hlast))]
    exact hnlast
  · intro x hok
    rcases scans_by_cases mem db t x .nil with ⟨_, _, hd, _⟩ | ⟨_, _, hd, _⟩ |
      ⟨_, _, hd, _⟩ | ⟨rows2, k, hk, ht2, _, _, _, _, hd⟩
    · simp [hd] at hok
    · simp [hd] at hok
    · simp [hd] at hok
    · have hrows : rows = rows2 := by
        rw [ht] at ht2
        exact Option.some.inj ht2
      subst hrows
      refine ⟨rows.eraseIdx k, by rw [hd, setRows_tables], ?_⟩
      exact ⟨fun r hr => hinc.1 r ((List.eraseIdx_sublist rows k).subset hr),
        hinc.2.sublist (List.eraseIdx_sublist rows k)⟩
  · intro x b r hb hok
    rcases scans_by_cases mem db t x b with ⟨_, he, _, _⟩ | ⟨_, he, _, _⟩ |
      ⟨_, he, _, _⟩ | ⟨rows2, k, hk, ht2, hid, _, _, he, _⟩
    · simp [he] at hok
    · simp [he] at hok
    · simp [he] at hok
    · have hrows : rows = rows2 := by
        rw [ht] at ht2
        exact Option.some.inj ht2
      subst hrows
      refine ⟨rows.set k b, by rw [he, setRows_tables], ?_⟩
      refine increasingIds_of_map mem mem rows (rows.set k b) ?_ hinc
      have hbid : numericId mem b = some x := by
        simp [numericId, assertFloat64, hb, asFloat64]
      have hkid : numericId mem (rows[k]) = some x := numericId_of_idIs mem x _ hid
      rw [List.map_set, hbid, ← hkid]
      apply List.ext_getElem?
      intro i
      by_cases hik : i = k
      · subst hik
        simp [hk]
      · rw [List.getElem?_set_ne (Ne.symm hik)]

/-- C15 at work: adding the map `{name:"c"}` to the ids 1, 2 leaves increasing ids. -/
theorem increasingIds_preserved_witness :
    ∃ rows1,
      (AddRow (memOf [[("id", .num 1)], [("id", .num 2)], [("name", .str "c")]])
        (oneTable "users" [.ref 0, .ref 1]) "users" (.ref 2)).2.1.Tables "users"
        = some rows1 ∧
      increasingIds (AddRow (memOf [[("id", .num 1)], [("id", .num 2)], [("name", .str "c")]])
        (oneTable "users" [.ref 0, .ref 1]) "users" (.ref 2)).1 rows1 :=
  (increasingIds_preserved (memOf [[("id", .num 1)], [("id", .num 2)], [("name", .str "c")]])
    (oneTable "users" [.ref 0, .ref 1]) "users" [.ref 0, .ref 1] rfl
    ⟨by decide, by decide⟩).1 (.ref 2) (.ref 2) (by decide)
    (fun last n hl hn => by
      have hl2 : last = .ref 1 := by
        have : some (row.ref 1) = some last := hl
        exact (Option.some.inj this).symm
      subst hl2
      have hn2 : n = 2 := by
        have : some (2 : Int) = some n := hn
        exact (Option.some.inj this).symm
      subst hn2
      decide)
    (by decide)

/-- C15 fails as stated, two ways.  On the single id `2^53` a successful `AddRow`
leaves the ids `2^53`, `2^53`.  On the ids 1, 2 a successful `AddRow` whose body is
the first row itself (as `GetRowById` hands it out) leaves the ids 3, 2, 3. -/
theorem AddRow_breaks_increasingIds :
    (increasingIds (memOf [[("id", .num 9007199254740992)], []]) [.ref 0] ∧
      (AddRow (memOf [[("id", .num 9007199254740992)], []]) (oneTable "users" [.ref 0])
        "users" (.ref 1)).2.2 = .ok (.ref 0) ∧
      (AddRow (memOf [[("id", .num 9007199254740992)], []]) (oneTable "users" [.ref 0])
        "users" (.ref 1)).2.1.Tables "users" = some [.ref 0, .ref 1] ∧
      ¬ increasingIds (AddRow (memOf [[("id", .num 9007199254740992)], []])
        (oneTable "users" [.ref 0]) "users" (.ref 1)).1 [.ref 0, .ref 1]) ∧
    (increasingIds (memOf [[("id", .num 1)], [("id", .num 2)]]) [.ref 0, .ref 1] ∧
      (AddRow (memOf [[("id", .num 1)], [("id", .num 2)]]) (oneTable "users" [.ref 0, .ref 1])
        "users" (.ref 0)).2.2 = .ok (.ref 0) ∧
      (AddRow (memOf [[("id", .num 1)], [("id", .num 2)]]) (oneTable "users" [.ref 0, .ref 1])
        "users" (.ref 0)).2.1.Tables "users" = some [.ref 0, .ref 1, .ref 0] ∧
      ¬ increasingIds (AddRow (memOf [[("id", .num 1)], [("id", .num 2)]])
        (oneTable "users" [.ref 0, .ref 1]) "users" (.ref 0)).1 [.ref 0, .ref 1, .ref 0]) := by
  unfold increasingIds
  decide

/-! ## An error after the append -/

/-- C16 fails on the code: on `{name:"x"}`, `{id:1}` the call appends the body,
writes id 2 into it, and then returns the `errColumnNotFound` of the lookup, which
stops at the first row; the table has three rows afterwards. -/
theorem AddRow_error_after_append :
    (AddRow (memOf [[("name", .str "x")], [("id", .num 1)], [("name", .str "a")]])
        (oneTable "users" [.ref 0, .ref 1]) "users" (.ref 2)).2.2
      = .err .errColumnNotFound ∧
    (AddRow (memOf [[("name", .str "x")], [("id", .num 1)], [("name", .str "a")]])
        (oneTable "users" [.ref 0, .ref 1]) "users" (.ref 2)).2.1.Tables "users"
      = some [.ref 0, .ref 1, .ref 2] ∧
    (AddRow (memOf [[("name", .str "x")], [("id", .num 1)], [("name", .str "a")]])
        (oneTable "users" [.ref 0, .ref 1]) "users" (.ref 2)).1 2
      = [("id", .num 2), ("name", .str "a")] ∧
    (oneTable "users" [.ref 0, .ref 1]).Tables "users" = some [.ref 0, .ref 1] := by
  decide

/-! ## Error texts -/

/-- C19 fails on the code: `errColumnNotFound` and `errTableNotFound`, two different
error values, carry the same text, `table does not exist`. -/
theorem errColumnNotFound_text_is_errTableNotFound_text :
    DbError.Error .errColumnNotFound = DbError.Error .errTableNotFound ∧
    DbError.Error .errColumnNotFound = "table does not exist" ∧
    DbError.errColumnNotFound ≠ DbError.errTableNotFound := by
  decide

/-! ## Lookup after deletion and after update -/

theorem idIs_iff (mem : Memory) (x : Int) (r : row) :
    idIs mem x r = true ↔ r.get mem "id" = some (.num x) := by
  unfold idIs
  cases hg : r.get mem "id" with
  | none => simp
  | some v => cases v <;> simp [anyEqFloat64]

theorem GetRowById_at_first (mem : Memory) (db : database) (t : table) (x : Int)
    (rows : List row) (k : Nat)
    (ht : db.Tables t = some rows) (hk : k < rows.length)
    (hbefore : ∀ (j : Nat) (hj : j < k), stopsScan mem x (rows[j]) = false)
    (hid : idIs mem x (rows[k]) = true) :
    GetRowById mem db t x = (db, .ok (rows[k])) := by
  have hstop : stopsScan mem x (rows[k]) = true := by simp [stopsScan, hid]
  have hl : lacksId mem (rows[k]) = false := by
    have := (idIs_iff mem x _).1 hid
    simp [lacksId, this]
  rw [GetRowById_eq mem db t x rows ht, find_at_first _ rows k hk hbefore hstop]
  simp [hl]

theorem EditRowById_at_first (mem : Memory) (db : database) (t : table) (x : Int) (b : row)
    (rows : List row) (k : Nat) (ht : db.Tables t = some rows) (hk : k < rows.length)
    (hbefore : ∀ (j : Nat) (hj : j < k), stopsScan mem x (rows[j]) = false)
    (hid : idIs mem x (rows[k]) = true) :
    EditRowById mem db t x b = (db.setRows t (rows.set k b), .ok b) := by
  have := EditRowById_loop_at mem db t x b 0 rows k hk
    (by simpa [rows_of_tables ht] using hk) hbefore hid
  simp only [Nat.zero_add, rows_of_tables ht] at this
  simp [EditRowById, tableExists_of_tables ht, rows_of_tables ht, this]

/-- C18: when the body carries the id `x` as a number and `EditRowById` succeeds,
`GetRowById` for `x` on the resulting store returns exactly the body, and the same
`EditRowById` once more succeeds and leaves that store as it is. -/
theorem edit_then_get (mem : Memory) (db : database) (t : table) (x : Int) (b r : row)
    (hb : b.get mem "id" = some (.num x)) (hok : (EditRowById mem db t x b).2 = .ok r) :
    (GetRowById mem (EditRowById mem db t x b).1 t x).2 = .ok b ∧
    EditRowById mem (EditRowById mem db t x b).1 t x b = ((EditRowById mem db t x b).1, .ok b) := by
  rcases scans_by_cases mem db t x b with ⟨_, he, _, _⟩ | ⟨_, he, _, _⟩ | ⟨_, he, _, _⟩ |
    ⟨rows, k, hk, ht, hid, hbefore, _, he, _⟩
  · simp [he] at hok
  · simp [he] at hok
  · simp [he] at hok
  · have hk2 : k < (rows.set k b).length := by simpa using hk
    have hbefore2 : ∀ (j : Nat) (hj : j < k), stopsScan mem x ((rows.set k b)[j]) = false := by
      intro j hj
      have hne : k ≠ j := by omega
      rw [List.getElem_set_ne hne]
      exact hbefore j hj
    have hid2 : idIs mem x ((rows.set k b)[k]) = true := by
      rw [List.getElem_set_self]
      exact (idIs_iff mem x b).2 hb
    have hget := GetRowById_at_first mem (db.setRows t (rows.set k b)) t x (rows.set k b) k
      (setRows_tables _ _ _) hk2 hbefore2 hid2
    have hedit := EditRowById_at_first mem (db.setRows t (rows.set k b)) t x b (rows.set k b) k
      (setRows_tables _ _ _) hk2 hbefore2 hid2
    rw [he]
    constructor
    · rw [hget]
      simp
    · rw [hedit, setRows_setRows, List.set_set]

/-- C18 at work: `{id:2,name:"a"}` edited to the map `{id:2,name:"b"}` is then found
under id 2. -/
theorem edit_then_get_witness :
    (GetRowById (memOf [[("id", .num 1)], [("id", .num 2), ("name", .str "a")],
        [("id", .num 2), ("name", .str "b")]])
      (EditRowById (memOf [[("id", .num 1)], [("id", .num 2), ("name", .str "a")],
        [("id", .num 2), ("name", .str "b")]])
        (oneTable "users" [.ref 0, .ref 1]) "users" 2 (.ref 2)).1 "users" 2).2
      = .ok (.ref 2) :=
  (edit_then_get (memOf [[("id", .num 1)], [("id", .num 2), ("name", .str "a")],
      [("id", .num 2), ("name", .str "b")]])
    (oneTable "users" [.ref 0, .ref 1]) "users" 2 (.ref 2) (.ref 2) rfl (by decide)).1

theorem find_after_remove (mem : Memory) (front back : List row) (c : row) (x : Int)
    (hd : distinctIds mem (front ++ c :: back)) (hc : idIs mem x c = true) :
    (front ++ back).find? (stopsScan mem x) = none ∧
    ∀ y, y ≠ x →
      (front ++ back).find? (stopsScan mem y) = (front ++ c :: back).find? (stopsScan mem y) := by
  obtain ⟨hhas, hpw⟩ := hd
  have hcid := (idIs_iff mem x c).1 hc
  rw [List.pairwise_append] at hpw
  obtain ⟨_, hcb, hfc⟩ := hpw
  rw [List.pairwise_cons] at hcb
  constructor
  · rw [List.find?_eq_none]
    intro r hr
    have hrl : lacksId mem r = false := by
      rcases List.mem_append.1 hr with h | h
      · exact hhas r (List.mem_append_left _ h)
      · exact hhas r (List.mem_append_right _ (List.mem_cons_of_mem _ h))
    have hne : r.get mem "id" ≠ c.get mem "id" := by
      rcases List.mem_append.1 hr with h | h
      · exact hfc r h c (List.mem_cons_self _ _)
      · exact fun e => hcb.1 r h e.symm
    have hri : idIs mem x r = false := by
      cases hi : idIs mem x r with
      | false => rfl
      | true => exact absurd (((idIs_iff mem x r).1 hi).trans hcid.symm) hne
    simp [stopsScan, hrl, hri]
  · intro y hy
    have hcl : lacksId mem c = false := hhas c (by simp)
    have hci : idIs mem y c = false := by
      cases hi : idIs mem y c with
      | false => rfl
      | true =>
        have := ((idIs_iff mem y c).1 hi).symm.trans hcid
        simp only [Option.some.injEq, Value.num.injEq] at this
        exact absurd this hy
    have hstop : ¬ (stopsScan mem y c = true) := by simp [stopsScan, hcl, hci]
    rw [List.find?_append, List.find?_append, List.find?_cons_of_neg _ hstop]

/-- C17: on a table whose rows all carry an `id`, no two the same, a successful
`DeleteRowById` for `x` leaves a store on which `GetRowById` for `x` fails with
`errRecordNotFound`, and on which `GetRowById` for any other id gives what it gave
before the deletion. -/
theorem delete_then_get (mem : Memory) (db : database) (t : table) (x : Int)
    (rows : List row)
    (ht : db.Tables t = some rows) (hd : distinctIds mem rows)
    (hok : (DeleteRowById mem db t x).2 = .ok ()) :
    (GetRowById mem (DeleteRowById mem db t x).1 t x).2 = .err .errRecordNotFound ∧
    ∀ y, y ≠ x →
      (GetRowById mem (DeleteRowById mem db t x).1 t y).2 = (GetRowById mem db t y).2 := by
  rcases scans_by_cases mem db t x .nil with ⟨_, _, hdel, _⟩ | ⟨_, _, hdel, _⟩ | ⟨_, _, hdel, _⟩ |
    ⟨rows2, k, hk, ht2, hid, _, _, _, hdel⟩
  · simp [hdel] at hok
  · simp [hdel] at hok
  · simp [hdel] at hok
  · have hrows : rows = rows2 := by
      rw [ht] at ht2
      exact Option.some.inj ht2
    subst hrows
    have hsplit : rows = rows.take k ++ rows[k] :: rows.drop (k + 1) := by
      have h1 : rows.drop k = rows[k] :: rows.drop (k + 1) := by simp
      rw [← h1, List.take_append_drop]
    have herase : rows.eraseIdx k = rows.take k ++ rows.drop (k + 1) :=
      List.eraseIdx_eq_take_drop_succ rows k
    have hd2 : distinctIds mem (rows.take k ++ rows[k] :: rows.drop (k + 1)) := by
      rw [← hsplit]; exact hd
    obtain ⟨hnone, hother⟩ := find_after_remove mem _ _ _ x hd2 hid
    rw [hdel]
    constructor
    · rw [GetRowById_eq mem _ t x (rows.eraseIdx k) (setRows_tables _ _ _), herase, hnone]
    · intro y hy
      rw [GetRowById_eq mem _ t y (rows.eraseIdx k) (setRows_tables _ _ _),
        GetRowById_eq mem db t y rows ht, herase, hother y hy, ← hsplit]

/-- C17 at work: after id 2 is deleted from the ids 1, 2, 3 the lookup of 2 finds
nothing and the lookup of 3 finds what it found. -/
theorem delete_then_get_witness :
    (GetRowById (memOf [[("id", .num 1)], [("id", .num 2)], [("id", .num 3)]])
      (DeleteRowById (memOf [[("id", .num 1)], [("id", .num 2)], [("id", .num 3)]])
        (oneTable "users" [.ref 0, .ref 1, .ref 2]) "users" 2).1 "users" 2).2
      = .err .errRecordNotFound ∧
    (GetRowById (memOf [[("id", .num 1)], [("id", .num 2)], [("id", .num 3)]])
      (DeleteRowById (memOf [[("id", .num 1)], [("id", .num 2)], [("id", .num 3)]])
        (oneTable "users" [.ref 0, .ref 1, .ref 2]) "users" 2).1 "users" 3).2
      = (GetRowById (memOf [[("id", .num 1)], [("id", .num 2)], [("id", .num 3)]])
        (oneTable "users" [.ref 0, .ref 1, .ref 2]) "users" 3).2 :=
  ⟨(delete_then_get (memOf [[("id", .num 1)], [("id", .num 2)], [("id", .num 3)]])
      (oneTable "users" [.ref 0, .ref 1, .ref 2]) "users" 2 [.ref 0, .ref 1, .ref 2] rfl
      ⟨by decide, by decide⟩ (by decide)).1,
   (delete_then_get (memOf [[("id", .num 1)], [("id", .num 2)], [("id", .num 3)]])
      (oneTable "users" [.ref 0, .ref 1, .ref 2]) "users" 2 [.ref 0, .ref 1, .ref 2] rfl
      ⟨by decide, by decide⟩ (by decide)).2 3 (by decide)⟩

end FakeJason
